import Mathlib

/-!
Verification development for the Australian Bureau of Statistics demographic
analysis programs (Project 1: `Project 1.py`, Project 2: `Project 2 .py`).

The Python source is shallowly embedded: strings are Lean `String`s with the
Python `str` methods re-implemented structurally over `String.data` (ASCII
semantics, which covers all data appearing in these CSV pipelines); Python
dicts are association lists with insertion-order semantics (`alookup`,
`alSet`); Python ints are `Int`; Python floats are modelled exactly, as `ℚ`
where the source computes field operations and as `ℝ` where the source takes
square roots; a Python exception escaping to a caller is modelled by
`Option`/`Except`.
-/

namespace ABS

/-! ### Python string primitives

Re-implementations of the `str` methods used by the source
(`strip`, `lower`, `split`, `isdigit`, `in`, `int(...)`, `<`),
written by structural recursion so they evaluate on concrete inputs. -/

/-- Characters treated as whitespace by Python `str.strip()` (ASCII range). -/
def pyIsSpace (c : Char) : Bool :=
  c = ' ' || c = '\t' || c = '\n' || c = '\r' || c = Char.ofNat 11 || c = Char.ofNat 12

/-- `str.strip()`: drop leading and trailing whitespace. -/
def pyStrip (s : String) : String :=
  ⟨((s.data.dropWhile pyIsSpace).reverse.dropWhile pyIsSpace).reverse⟩

/-- ASCII lower-casing of one character (Python `str.lower` on ASCII data). -/
def pyLowerChar (c : Char) : Char :=
  if 65 ≤ c.toNat && c.toNat ≤ 90 then Char.ofNat (c.toNat + 32) else c

/-- `str.lower()` (ASCII). -/
def pyLower (s : String) : String := ⟨s.data.map pyLowerChar⟩

/-- Split a character list at every occurrence of `sep`
(Python `str.split(sep)` for a one-character separator: `"" → [""]`). -/
def splitChars (sep : Char) : List Char → List (List Char)
  | [] => [[]]
  | c :: t =>
    let r := splitChars sep t
    if c = sep then [] :: r
    else
      match r with
      | [] => [[c]]
      | h :: t2 => (c :: h) :: t2

/-- `str.split(sep)` for a one-character separator. -/
def pySplit (sep : Char) (s : String) : List String :=
  (splitChars sep s.data).map (⟨·⟩)

/-- ASCII decimal digit test. -/
def pyIsDigitChar (c : Char) : Bool := 48 ≤ c.toNat && c.toNat ≤ 57

/-- `str.isdigit()`: nonempty and all digits. -/
def pyIsDigit (s : String) : Bool := !s.data.isEmpty && s.data.all pyIsDigitChar

/-- Value of a digit string. -/
def digitsToNat (l : List Char) : Nat := l.foldl (fun n c => 10 * n + (c.toNat - 48)) 0

/-- Digits-only parse: `some` iff the character list is a nonempty digit string. -/
def parseDigits (l : List Char) : Option Nat :=
  if !l.isEmpty && l.all pyIsDigitChar then some (digitsToNat l) else none

/-- Python `int(s)` on an already-stripped string: optional sign then digits;
`none` models the `ValueError` exception. -/
def pyParseInt (s : String) : Option Int :=
  match s.data with
  | '-' :: rest => (parseDigits rest).map (fun n => -(n : Int))
  | '+' :: rest => (parseDigits rest).map (fun n => (n : Int))
  | l => (parseDigits l).map (fun n => (n : Int))

/-- `int(x.strip() or 0)`: an empty string (falsy) parses as `0`;
`none` models the `ValueError` exception on non-numeric text. -/
def pyIntOr0 (x : String) : Option Int :=
  let t := pyStrip x
  if t.data.isEmpty then some 0 else pyParseInt t

/-- Strict lexicographic comparison of character lists by code point
(Python `str <`). -/
def charsLt : List Char → List Char → Bool
  | [], [] => false
  | [], _ :: _ => true
  | _ :: _, [] => false
  | a :: s, b :: t =>
    if a.toNat < b.toNat then true
    else if b.toNat < a.toNat then false
    else charsLt s t

/-- Python `a < b` on strings. -/
def pyLt (a b : String) : Bool := charsLt a.data b.data

/-- Python `a <= b` on strings (total order: `a ≤ b ↔ ¬ b < a`). -/
def pyLe (a b : String) : Bool := !pyLt b a

/-- `pyLe` as a `Prop`-valued relation, for use with `List.insertionSort`. -/
def strLe (a b : String) : Prop := pyLe a b = true

instance : DecidableRel strLe := fun a b => by unfold strLe; infer_instance

/-- Ascending sort of a string list (Python `list.sort()` on strings). -/
def pySortStr (l : List String) : List String := List.insertionSort strLe l

/-- `p.isPrefixOf`-style check: does `p` start the list `l`? -/
def charsStart (p l : List Char) : Bool :=
  match p, l with
  | [], _ => true
  | _ :: _, [] => false
  | a :: ps, c :: cs => a = c && charsStart ps cs

/-- Substring containment on character lists. -/
def charsHasSub (pat : List Char) : List Char → Bool
  | [] => charsStart pat []
  | c :: cs => charsStart pat (c :: cs) || charsHasSub pat cs

/-- Python `pat in s` on strings. -/
def pyContains (s pat : String) : Bool := charsHasSub pat.data s.data

/-! ### Facts about the string order -/

theorem charsLt_irrefl (l : List Char) : charsLt l l = false := by
  induction l with
  | nil => rfl
  | cons a t ih => simp [charsLt, ih]

theorem charsLt_asymm {a b : List Char} (h : charsLt a b = true) :
    charsLt b a = false := by
  induction a generalizing b with
  | nil =>
    cases b with
    | nil => simp [charsLt] at h
    | cons c t => simp [charsLt]
  | cons x s ih =>
    cases b with
    | nil => simp [charsLt] at h
    | cons c t =>
      by_cases h1 : x.toNat < c.toNat
      · have h2 : ¬ c.toNat < x.toNat := by omega
        simp [charsLt, h1, h2]
      · by_cases h2 : c.toNat < x.toNat
        · simp [charsLt, h1, h2] at h
        · simp [charsLt, h1, h2] at h ⊢
          exact ih h

theorem charsLt_conn {a b : List Char} (hab : charsLt a b = false)
    (hba : charsLt b a = false) : a = b := by
  induction a generalizing b with
  | nil =>
    cases b with
    | nil => rfl
    | cons c t => simp [charsLt] at hab
  | cons x s ih =>
    cases b with
    | nil => simp [charsLt] at hba
    | cons c t =>
      by_cases h1 : x.toNat < c.toNat
      · simp [charsLt, h1] at hab
      · by_cases h2 : c.toNat < x.toNat
        · simp [charsLt, h1, h2] at hba
        · simp [charsLt, h1, h2] at hab hba
          have hx : x = c := Char.ext (UInt32.ext (show x.toNat = c.toNat by omega))
          rw [hx, ih hab hba]

theorem charsLt_trans {a b c : List Char} (h1 : charsLt a b = true)
    (h2 : charsLt b c = true) : charsLt a c = true := by
  induction a generalizing b c with
  | nil =>
    cases c with
    | nil =>
      cases b with
      | nil => exact h1
      | cons y t => simp [charsLt] at h2
    | cons z u => simp [charsLt]
  | cons x s ih =>
    cases b with
    | nil => simp [charsLt] at h1
    | cons y t =>
      cases c with
      | nil => simp [charsLt] at h2
      | cons z u =>
        by_cases hxy : x.toNat < y.toNat
        · by_cases hyz : y.toNat < z.toNat
          · have : x.toNat < z.toNat := by omega
            simp [charsLt, this]
          · by_cases hzy : z.toNat < y.toNat
            · simp [charsLt, hyz, hzy] at h2
            · have hyeq : y.toNat = z.toNat := by omega
              have : x.toNat < z.toNat := by omega
              simp [charsLt, this]
        · by_cases hyx : y.toNat < x.toNat
          · simp [charsLt, hxy, hyx] at h1
          · have hxeq : x.toNat = y.toNat := by omega
            by_cases hyz : y.toNat < z.toNat
            · have : x.toNat < z.toNat := by omega
              simp [charsLt, this]
            · by_cases hzy : z.toNat < y.toNat
              · simp [charsLt, hyz, hzy] at h2
              · have : ¬ x.toNat < z.toNat := by omega
                have h2' : ¬ z.toNat < x.toNat := by omega
                simp [charsLt, hxy, hyx] at h1
                simp [charsLt, hyz, hzy] at h2
                simp [charsLt, this, h2']
                exact ih h1 h2

theorem pyLe_refl (a : String) : pyLe a a = true := by
  simp [pyLe, pyLt, charsLt_irrefl]

theorem pyLe_total (a b : String) : pyLe a b = true ∨ pyLe b a = true := by
  by_cases h : charsLt b.data a.data = true
  · right
    simp [pyLe, pyLt, charsLt_asymm h]
  · left
    simp [pyLe, pyLt]
    simpa using h

theorem pyLe_antisymm {a b : String} (h1 : pyLe a b = true)
    (h2 : pyLe b a = true) : a = b := by
  simp [pyLe, pyLt] at h1 h2
  exact String.ext (charsLt_conn h2 h1)

theorem pyLe_trans {a b c : String} (h1 : pyLe a b = true)
    (h2 : pyLe b c = true) : pyLe a c = true := by
  simp [pyLe, pyLt] at h1 h2 ⊢
  by_cases hca : charsLt c.data a.data = true
  · exfalso
    by_cases hbc : charsLt b.data c.data = true
    · have : charsLt b.data a.data = true := charsLt_trans hbc hca
      rw [this] at h1
      exact Bool.noConfusion h1
    · have hbeq : b.data = c.data :=
        charsLt_conn (by simpa using hbc) h2
      rw [← hbeq] at hca
      rw [hca] at h1
      exact Bool.noConfusion h1
  · simpa using hca

instance : IsTotal String strLe := ⟨pyLe_total⟩

instance : IsTrans String strLe := ⟨fun _ _ _ => pyLe_trans⟩

instance : IsRefl String strLe := ⟨pyLe_refl⟩

theorem strLe_eq {a b : String} (h1 : strLe a b) (h2 : strLe b a) : a = b :=
  pyLe_antisymm h1 h2

theorem pyLt_of_not_le {a b : String} (h : ¬ strLe a b) : pyLt b a = true := by
  simp [strLe, pyLe] at h
  exact h

theorem not_pyLt_of_le {a b : String} (h : strLe a b) : pyLt b a = false := by
  simp [strLe, pyLe] at h
  exact h

/-! ### Association lists (Python dicts, insertion-order semantics) -/

/-- Dict lookup: value of the first entry with the given key. -/
def alookup {β : Type} (m : List (String × β)) (k : String) : Option β :=
  match m with
  | [] => none
  | (a, b) :: t => if a = k then some b else alookup t k

/-- Dict assignment `m[k] = v`: update the existing entry in place,
else append a new entry (CPython insertion-order semantics). -/
def alSet {β : Type} : List (String × β) → String → β → List (String × β)
  | [], k, v => [(k, v)]
  | (a, b) :: t, k, v => if a = k then (a, v) :: t else (a, b) :: alSet t k v

/-- The keys of a dict, in insertion order. -/
def alKeys {β : Type} (m : List (String × β)) : List String := m.map Prod.fst

theorem alookup_eq_none {β : Type} (m : List (String × β)) (k : String) :
    alookup m k = none ↔ k ∉ alKeys m := by
  induction m with
  | nil => simp [alookup, alKeys]
  | cons p t ih =>
    obtain ⟨a, b⟩ := p
    by_cases h : a = k
    · simp [alookup, alKeys, h]
    · simp [alookup, alKeys, h, ih, Ne.symm h]

theorem alookup_mem {β : Type} {m : List (String × β)} {k : String} {v : β}
    (h : alookup m k = some v) : (k, v) ∈ m := by
  induction m with
  | nil => simp [alookup] at h
  | cons p t ih =>
    obtain ⟨a, b⟩ := p
    by_cases ha : a = k
    · subst ha
      simp [alookup] at h
      simp [h]
    · simp [alookup, ha] at h
      exact List.mem_cons_of_mem _ (ih h)

theorem alookup_alSet_self {β : Type} (m : List (String × β)) (k : String) (v : β) :
    alookup (alSet m k v) k = some v := by
  induction m with
  | nil => simp [alSet, alookup]
  | cons p t ih =>
    obtain ⟨a, b⟩ := p
    by_cases h : a = k
    · simp [alSet, alookup, h]
    · simp [alSet, alookup, h, ih]

theorem alookup_alSet_ne {β : Type} (m : List (String × β)) {k k' : String} (v : β)
    (h : k' ≠ k) : alookup (alSet m k v) k' = alookup m k' := by
  induction m with
  | nil => simp [alSet, alookup, Ne.symm h]
  | cons p t ih =>
    obtain ⟨a, b⟩ := p
    by_cases ha : a = k
    · subst ha
      simp [alSet, alookup, Ne.symm h]
    · simp only [alSet, if_neg ha, alookup]
      by_cases hk : a = k'
      · simp [hk]
      · simp [hk, ih]

theorem alKeys_alSet {β : Type} (m : List (String × β)) (k : String) (v : β) :
    alKeys (alSet m k v) = if k ∈ alKeys m then alKeys m else alKeys m ++ [k] := by
  induction m with
  | nil => simp [alSet, alKeys]
  | cons p t ih =>
    obtain ⟨a, b⟩ := p
    by_cases h : a = k
    · simp [alSet, alKeys, h]
    · simp only [alSet, if_neg h, alKeys, List.map_cons] at ih ⊢
      rw [ih]
      by_cases hm : k ∈ List.map Prod.fst t
      · simp [hm, Ne.symm h]
      · simp [hm, Ne.symm h]

theorem alKeys_nodup_alSet {β : Type} {m : List (String × β)} (k : String) (v : β)
    (h : (alKeys m).Nodup) : (alKeys (alSet m k v)).Nodup := by
  rw [alKeys_alSet]
  by_cases hk : k ∈ alKeys m
  · simpa [hk] using h
  · simp only [hk, if_false]
    simpa [List.nodup_append] using ⟨h, hk⟩

theorem mem_alSet {β : Type} {m : List (String × β)} {k : String} {v : β}
    {p : String × β} (h : p ∈ alSet m k v) : p = (k, v) ∨ p ∈ m := by
  induction m with
  | nil => simpa [alSet] using h
  | cons q t ih =>
    obtain ⟨a, b⟩ := q
    by_cases ha : a = k
    · subst ha
      simp [alSet] at h
      rcases h with h | h
      · exact Or.inl (by simp [h])
      · exact Or.inr (List.mem_cons_of_mem _ h)
    · simp [alSet, ha] at h
      rcases h with h | h
      · exact Or.inr (by simp [h])
      · rcases ih h with h' | h'
        · exact Or.inl h'
        · exact Or.inr (List.mem_cons_of_mem _ h')

theorem alookup_perm {β : Type} {m m' : List (String × β)} (hp : m.Perm m')
    (hnd : (alKeys m).Nodup) (k : String) : alookup m k = alookup m' k := by
  have hnd' : (alKeys m').Nodup := (hp.map Prod.fst).nodup_iff.mp hnd
  cases hm : alookup m k with
  | none =>
    rw [alookup_eq_none] at hm
    have : k ∉ alKeys m' := fun hc => hm ((hp.map Prod.fst).mem_iff.mpr hc)
    exact ((alookup_eq_none m' k).mpr this).symm
  | some v =>
    have hmem : (k, v) ∈ m' := hp.mem_iff.mp (alookup_mem hm)
    cases hm' : alookup m' k with
    | none =>
      rw [alookup_eq_none] at hm'
      exact absurd (List.mem_map_of_mem Prod.fst hmem) hm'
    | some w =>
      have hmem' : (k, w) ∈ m := hp.mem_iff.mpr (alookup_mem hm')
      have hvw : (k, v) = ((k, w) : String × β) := by
        have h1 := alookup_mem hm
        exact List.inj_on_of_nodup_map (f := Prod.fst) hnd h1 hmem' rfl
      rw [(Prod.mk.inj hvw).2]

/-! ### Minima of string lists and the sorted head -/

/-- First occurrence of the least string in a list (`none` on `[]`). -/
def minKeyOf (l : List String) : Option String :=
  l.foldl (fun acc s =>
    match acc with
    | none => some s
    | some m => if pyLt s m then some s else some m) none

theorem minKeyOf_spec {l : List String} (h : l ≠ []) :
    ∃ m, minKeyOf l = some m ∧ m ∈ l ∧ ∀ s ∈ l, strLe m s := by
  induction l with
  | nil => exact absurd rfl h
  | cons a t ih =>
    have step : ∀ (t' : List String) (m : String),
        ∃ r, t'.foldl (fun acc s =>
          match acc with
          | none => some s
          | some m => if pyLt s m then some s else some m) (some m) = some r ∧
          (r = m ∨ r ∈ t') ∧ strLe r m ∧ ∀ s ∈ t', strLe r s := by
      intro t'
      induction t' with
      | nil => exact fun m => ⟨m, rfl, Or.inl rfl, pyLe_refl m, by simp⟩
      | cons b u ihu =>
        intro m
        by_cases hb : pyLt b m = true
        · obtain ⟨r, hr, hmem, hle, hall⟩ := ihu b
          refine ⟨r, by simpa [hb] using hr, ?_, ?_, ?_⟩
          · rcases hmem with h' | h'
            · exact Or.inr (by simp [h'])
            · exact Or.inr (List.mem_cons_of_mem _ h')
          · have hb' : charsLt b.data m.data = true := hb
            have hmb := charsLt_asymm hb'
            have hbm : strLe b m := by simp [strLe, pyLe, pyLt, hmb]
            exact pyLe_trans hle hbm
          · intro s hs
            rcases List.mem_cons.mp hs with h' | h'
            · exact h' ▸ hle
            · exact hall s h'
        · obtain ⟨r, hr, hmem, hle, hall⟩ := ihu m
          refine ⟨r, by simpa [hb] using hr, ?_, hle, ?_⟩
          · rcases hmem with h' | h'
            · exact Or.inl h'
            · exact Or.inr (List.mem_cons_of_mem _ h')
          · intro s hs
            rcases List.mem_cons.mp hs with h' | h'
            · subst h'
              exact pyLe_trans hle (by simpa [strLe, pyLe] using hb)
            · exact hall s h'
    obtain ⟨r, hr, hmem, hle, hall⟩ := step t a
    refine ⟨r, by simpa [minKeyOf] using hr, ?_, ?_⟩
    · rcases hmem with h' | h'
      · simp [h']
      · exact List.mem_cons_of_mem _ h'
    · intro s hs
      rcases List.mem_cons.mp hs with h' | h'
      · exact h' ▸ hle
      · exact hall s h'

theorem pySortStr_perm (l : List String) : (pySortStr l).Perm l :=
  List.perm_insertionSort strLe l

theorem pySortStr_sorted (l : List String) : List.Sorted strLe (pySortStr l) :=
  List.sorted_insertionSort strLe l

/-- The head of the ascending sort is the least element. -/
theorem pySortStr_head_eq_min (l : List String) :
    (pySortStr l).head? = minKeyOf l := by
  cases hl : pySortStr l with
  | nil =>
    have hp := pySortStr_perm l
    rw [hl] at hp
    have : l = [] := hp.symm.eq_nil
    simp [this, minKeyOf]
  | cons h t =>
    have hne : l ≠ [] := by
      intro hc
      rw [hc] at hl
      simp [pySortStr, List.insertionSort] at hl
    obtain ⟨m, hm, hmem, hall⟩ := minKeyOf_spec hne
    rw [hm]
    have hsort := pySortStr_sorted l
    rw [hl] at hsort
    have hperm := pySortStr_perm l
    rw [hl] at hperm
    have hhead_le : ∀ s ∈ l, strLe h s := by
      intro s hs
      rcases List.mem_cons.mp (hperm.symm.mem_iff.mp hs) with h' | h'
      · exact h' ▸ pyLe_refl h
      · exact List.rel_of_sorted_cons hsort s h'
    have hhm : h ∈ l := hperm.mem_iff.mp (by simp)
    have := strLe_eq (hhead_le m hmem) (hall h hhm)
    simp [this]

/-! ### Extremal search: specification-side definitions

`maxValOf`/`argmaxMinKey` formalize the spec's words for the
extremal-with-tiebreak search: the maximum score, and the
lexicographically smallest key among the candidates tied at it. -/

/-- One step of a running maximum over `Option Int`. -/
def maxStep (acc : Option Int) (v : Int) : Option Int :=
  match acc with
  | none => some v
  | some w => some (max w v)

/-- The maximum of the scores of an association list (`none` on `[]`). -/
def maxValOf (m : List (String × Int)) : Option Int :=
  (m.map Prod.snd).foldl maxStep none

/-- Modelled from the spec: "all candidates tied at the maximum are collected,
then lexicographic ascending tiebreak selects exactly one winner". -/
def argmaxMinKey (m : List (String × Int)) : Option String :=
  match maxValOf m with
  | none => none
  | some M => minKeyOf ((m.filter (fun p => p.2 = M)).map Prod.fst)

theorem maxValOf_spec {m : List (String × Int)} (h : m ≠ []) :
    ∃ M, maxValOf m = some M ∧ M ∈ m.map Prod.snd ∧ ∀ v ∈ m.map Prod.snd, v ≤ M := by
  have step : ∀ (vs : List Int) (w : Int),
      ∃ M, vs.foldl (fun acc v =>
        match acc with
        | none => some v
        | some w => some (max w v)) (some w) = some M ∧
        (M = w ∨ M ∈ vs) ∧ w ≤ M ∧ ∀ v ∈ vs, v ≤ M := by
    intro vs
    induction vs with
    | nil => exact fun w => ⟨w, rfl, Or.inl rfl, le_refl w, by simp⟩
    | cons b u ihu =>
      intro w
      obtain ⟨M, hM, hmem, hle, hall⟩ := ihu (max w b)
      refine ⟨M, hM, ?_, le_trans (le_max_left w b) hle, ?_⟩
      · rcases hmem with h' | h'
        · rcases max_choice w b with hc | hc
          · exact Or.inl (by rw [h', hc])
          · exact Or.inr (by simp [h', hc])
        · exact Or.inr (List.mem_cons_of_mem _ h')
      · intro v hv
        rcases List.mem_cons.mp hv with h' | h'
        · exact h' ▸ le_trans (le_max_right w b) hle
        · exact hall v h'
  cases m with
  | nil => exact absurd rfl h
  | cons p t =>
    obtain ⟨M, hM, hmem, hle, hall⟩ := step (t.map Prod.snd) p.2
    refine ⟨M, by simpa [maxValOf] using hM, ?_, ?_⟩
    · rcases hmem with h' | h'
      · simp [h']
      · simp [List.mem_cons_of_mem, h']
    · intro v hv
      rcases List.mem_cons.mp hv with h' | h'
      · exact h' ▸ hle
      · exact hall v h'

theorem maxValOf_nil : maxValOf [] = none := rfl

theorem maxValOf_perm {m m' : List (String × Int)} (hp : m.Perm m') :
    maxValOf m = maxValOf m' := by
  cases hm : m with
  | nil =>
    have : m' = [] := (hm ▸ hp).symm.eq_nil
    simp [this, hm]
  | cons p t =>
    have hne : m ≠ [] := by simp [hm]
    have hne' : m' ≠ [] := by
      intro hc
      rw [hc] at hp
      exact hne hp.eq_nil
    obtain ⟨M, hM, hmem, hall⟩ := maxValOf_spec hne
    obtain ⟨M', hM', hmem', hall'⟩ := maxValOf_spec hne'
    have hmap := hp.map Prod.snd
    have h1 : M ≤ M' := hall' M (hmap.mem_iff.mp hmem)
    have h2 : M' ≤ M := hall M' (hmap.mem_iff.mpr hmem')
    rw [hm] at hM
    rw [hM, hM', le_antisymm h1 h2]

theorem minKeyOf_perm {l l' : List String} (hp : l.Perm l') :
    minKeyOf l = minKeyOf l' := by
  cases hl : l with
  | nil =>
    have : l' = [] := (hl ▸ hp).symm.eq_nil
    simp [this, hl, minKeyOf]
  | cons a t =>
    have hne : l ≠ [] := by simp [hl]
    have hne' : l' ≠ [] := by
      intro hc
      rw [hc] at hp
      exact hne hp.eq_nil
    obtain ⟨m, hm, hmem, hall⟩ := minKeyOf_spec hne
    obtain ⟨m', hm', hmem', hall'⟩ := minKeyOf_spec hne'
    have h1 : strLe m m' := hall m' (hp.mem_iff.mpr hmem')
    have h2 : strLe m' m := hall' m (hp.mem_iff.mp hmem)
    rw [hl] at hm
    rw [hm, hm', strLe_eq h1 h2]

theorem argmaxMinKey_perm {m m' : List (String × Int)} (hp : m.Perm m') :
    argmaxMinKey m = argmaxMinKey m' := by
  unfold argmaxMinKey
  rw [maxValOf_perm hp]
  cases maxValOf m' with
  | none => rfl
  | some M => exact minKeyOf_perm ((hp.filter _).map Prod.fst)

/-! ### Exact rounding

`bround` models Python's builtin `round` (banker's rounding: ties go to the
nearest even integer) over an exact ordered field; `round4` is
`round(x, 4)`. -/

/-- Python `round(x)`: nearest integer, ties to even. -/
def bround {α : Type} [LinearOrderedField α] [FloorRing α] [DecidableEq α]
    (x : α) : ℤ :=
  if Int.fract x = 1 / 2 then 2 * round (x / 2) else round x

/-- Python `round(x, 4)`. -/
def round4 {α : Type} [LinearOrderedField α] [FloorRing α] [DecidableEq α]
    (x : α) : α :=
  (bround (x * 10000) : α) / 10000

theorem bround_intCast {α : Type} [LinearOrderedField α] [FloorRing α]
    [DecidableEq α] (n : ℤ) : bround (n : α) = n := by
  unfold bround
  rw [Int.fract_intCast]
  have : (0 : α) ≠ 1 / 2 := by norm_num
  simp [this, round_intCast]

theorem round4_one {α : Type} [LinearOrderedField α] [FloorRing α]
    [DecidableEq α] : round4 (1 : α) = 1 := by
  unfold round4
  have h : ((1 : α) * 10000) = ((10000 : ℤ) : α) := by norm_num
  rw [h, bround_intCast]
  norm_num

theorem round4_zero {α : Type} [LinearOrderedField α] [FloorRing α]
    [DecidableEq α] : round4 (0 : α) = 0 := by
  unfold round4
  have h : ((0 : α) * 10000) = ((0 : ℤ) : α) := by norm_num
  rw [h, bround_intCast]
  norm_num

/-! ## Project 1 (`Project 1.py`) -/

/-- Python `sum` of a list of ints. -/
def listSumInt (l : List Int) : Int := l.foldl (· + ·) 0

/-- Exact value of the float mean `sum(v) / len(v)`. -/
def listMeanQ (v : List Int) : ℚ := (listSumInt v : ℚ) / (v.length : ℚ)

/-- `sum((x - m) ** 2 for x in v)` about a given centre `m`. -/
def sqSumAbout (v : List Int) (m : ℚ) : ℚ :=
  v.foldl (fun acc (x : Int) => acc + ((x : ℚ) - m) ^ 2) 0

/-! ### `match_age_to_group` (Project 1, lines 228-255) -/

/-- `"85 and over" in label.lower()` - the source's open-ended bucket test. -/
def isOpenEnded (label : String) : Bool := pyContains (pyLower label) "85 and over"

/-- `"".join(c if c.isdigit() or c == "-" else "" for c in label)`. -/
def rangeDigits (label : String) : List Char :=
  label.data.filter (fun c => pyIsDigitChar c || c = '-')

/-- The source's closed-range parse of a bucket label:
keep digits and dashes, split on `"-"`, succeed iff exactly two digit runs. -/
def parseRange (label : String) : Option (Nat × Nat) :=
  match splitChars '-' (rangeDigits label) with
  | [b0, b1] =>
    if !b0.isEmpty && b0.all pyIsDigitChar && (!b1.isEmpty && b1.all pyIsDigitChar) then
      some (digitsToNat b0, digitsToNat b1)
    else none
  | _ => none

/-- Does one bucket label match the age, per the source's tests
(open-ended: `age >= 85`; closed `low-high`: `low <= age <= high`)? -/
def labelMatches (age : Int) (label : String) : Bool :=
  if isOpenEnded label then decide (85 ≤ age)
  else
    match parseRange label with
    | some (lo, hi) => decide ((lo : Int) ≤ age) && decide (age ≤ (hi : Int))
    | none => false

/-- `match_age_to_group(age, age_group_labels)` (Project 1, lines 228-255). -/
def match_age_to_group (age : Int) : List String → Option String × Bool
  | [] => (none, false)
  | label :: rest =>
    if isOpenEnded label then
      if 85 ≤ age then (some label, true) else match_age_to_group age rest
    else
      match parseRange label with
      | some (lo, hi) =>
        if (lo : Int) ≤ age ∧ age ≤ (hi : Int) then (some label, false)
        else match_age_to_group age rest
      | none => match_age_to_group age rest

/-! ### `parse_area_data` (Project 1, lines 258-304) -/

/-- The four mapping dictionaries returned by `parse_area_data`. -/
structure AreaMaps where
  sa2ToSa3 : List (String × String)
  sa3ToState : List (String × String)
  sa3ToName : List (String × String)
  stateToSa3 : List (String × List String)
deriving DecidableEq

/-- `state_to_sa3_map.setdefault(state, []).append(sa3)`. -/
def alAppend (m : List (String × List String)) (k : String) (v : String) :
    List (String × List String) :=
  match alookup m k with
  | none => m ++ [(k, [v])]
  | some l => alSet m k (l ++ [v])

/-- One data row of the area CSV: `(state_name, sa3_code, sa3_name, sa2_code)`
after the `len(fields) < 5` guard, stripping and lower-casing. -/
def parseAreaLine (line : String) : Option (String × String × String × String) :=
  let fields := pySplit ',' line
  if fields.length < 5 then none
  else some (pyLower (pyStrip (fields.getD 1 "")), pyStrip (fields.getD 2 ""),
    pyLower (pyStrip (fields.getD 3 "")), pyStrip (fields.getD 4 ""))

/-- The row loop of `parse_area_data`. The source's `seen_sa2_codes` set always
equals the key set of `sa2_to_sa3` (both are extended together), so the
already-seen test is modelled by a lookup in `sa2ToSa3`. -/
def parseAreaAux : List String → AreaMaps → AreaMaps
  | [], acc => acc
  | line :: rest, acc =>
    match parseAreaLine line with
    | none => parseAreaAux rest acc
    | some (st, s3c, s3n, s2c) =>
      if (alookup acc.sa2ToSa3 s2c).isSome then parseAreaAux rest acc
      else
        parseAreaAux rest
          { sa2ToSa3 := acc.sa2ToSa3 ++ [(s2c, s3c)]
            sa3ToState := alSet acc.sa3ToState s3c st
            sa3ToName := alSet acc.sa3ToName s3c s3n
            stateToSa3 := alAppend acc.stateToSa3 st s3c }

/-- `parse_area_data(area_lines)` (Project 1, lines 258-304): the row loop,
then per-state `sorted(set(...))`. -/
def parse_area_data (lines : List String) : AreaMaps :=
  let raw := parseAreaAux (lines.drop 1) ⟨[], [], [], []⟩
  { raw with stateToSa3 := raw.stateToSa3.map (fun p => (p.1, pySortStr p.2.dedup)) }

/-! ### Project 1 inline SA3 statistics (lines 128-141) -/

/-- The mean/standard-deviation computation of Output 2
(`Project 1.py` lines 128-141) on the collected `age_group_counts`:
float mean, sample standard deviation with divisor `n - 1` when `n > 1`,
`0.0` fallbacks, both rounded to 4 places when stored. -/
noncomputable def p1Stats (counts : List Int) : ℚ × ℝ :=
  if counts.isEmpty then (0, 0)
  else
    let mean := listMeanQ counts
    let sd : ℝ :=
      if 1 < counts.length then
        Real.sqrt (((sqSumAbout counts mean) / ((counts.length : ℚ) - 1) : ℚ) : ℝ)
      else 0
    (round4 mean, round4 sd)

/-! ### Project 1 per-state extremal search (lines 167-183) -/

/-- The inner loop of Output 3: tracks `(max_age_count, max_sa3)` starting from
`(-1, None)`; on a tie the source evaluates `sa3 < max_sa3`, which raises
`TypeError` when `max_sa3` is still `None` (modelled by `.error`). -/
def p1FindMaxAux (tot : String → Int) :
    List String → Int → Option String → Except Unit (Int × Option String)
  | [], mc, ms => .ok (mc, ms)
  | s :: rest, mc, ms =>
    let t := tot s
    if t > mc then p1FindMaxAux tot rest t (some s)
    else if t = mc then
      match ms with
      | none => .error ()
      | some m =>
        if pyLt s m then p1FindMaxAux tot rest t (some s)
        else p1FindMaxAux tot rest mc ms
    else p1FindMaxAux tot rest mc ms

/-- The per-state maximum search of Output 3 (`Project 1.py` lines 170-178)
over the state's SA3 list, with `age_total = sa3_age_group_total.get(sa3, 0)`
supplied as `tot`. -/
def p1FindMax (sa3s : List String) (tot : String → Int) :
    Except Unit (Int × Option String) :=
  p1FindMaxAux tot sa3s (-1) none

/-! ### Project 1 Pearson correlation (lines 188-218) -/

/-- `[int(x.strip() or 0) for x in columns[2:]]`; `none` models the
`ValueError` exception escaping the comprehension. -/
def mapIntOr0 : List String → Option (List Int)
  | [] => some []
  | x :: t =>
    match pyIntOr0 x, mapIntOr0 t with
    | some v, some vs => some (v :: vs)
    | _, _ => none

/-- The row scan of Output 4 (lines 192-198): the last matching row wins for
each code; both `if` tests fire when the codes coincide, and the parse is
shared between them (it reads the same columns). `none` models a parse
exception aborting `main`. -/
def scanAux (c1 c2 : String) :
    List String → Option (List Int) → Option (List Int) →
      Option (Option (List Int) × Option (List Int))
  | [], d1, d2 => some (d1, d2)
  | line :: rest, d1, d2 =>
    let cols := pySplit ',' line
    let sa2 := pyStrip (cols.headD "")
    if sa2 = c1 ∨ sa2 = c2 then
      match mapIntOr0 (cols.drop 2) with
      | none => none
      | some v =>
        scanAux c1 c2 rest (if sa2 = c1 then some v else d1)
          (if sa2 = c2 then some v else d2)
    else scanAux c1 c2 rest d1 d2

/-- The extracted `(age_dist_1, age_dist_2)` after scanning
`population_lines[1:]`. -/
def scanDists (popLines : List String) (c1 c2 : String) :
    Option (Option (List Int) × Option (List Int)) :=
  scanAux c1 c2 (popLines.drop 1) none none

/-- `numerator = sum((x - mean1) * (y - mean2) for x, y in zip(...))`. -/
def pearsonNum (v1 v2 : List Int) : ℚ :=
  (v1.zip v2).foldl
    (fun acc p => acc + ((p.1 : ℚ) - listMeanQ v1) * ((p.2 : ℚ) - listMeanQ v2)) 0

/-- `denominator = (sum((x - mean1) ** 2 ...) * sum((y - mean2) ** 2 ...)) ** 0.5`. -/
noncomputable def pearsonDen (v1 v2 : List Int) : ℝ :=
  Real.sqrt (((sqSumAbout v1 (listMeanQ v1)) * (sqSumAbout v2 (listMeanQ v2)) : ℚ) : ℝ)

/-- Lines 200-215: the truthiness/length guard, the zero-variance guard, and
the guarded Pearson quotient rounded to 4 places. -/
noncomputable def pearsonR (d1 d2 : Option (List Int)) : ℝ :=
  match d1, d2 with
  | some v1, some v2 =>
    if v1.isEmpty ∨ v2.isEmpty ∨ v1.length ≠ v2.length then 0
    else if (∀ x ∈ v1, (x : ℚ) = listMeanQ v1) ∨ (∀ y ∈ v2, (y : ℚ) = listMeanQ v2) then 0
    else
      round4 (if pearsonDen v1 v2 = 0 then 0 else (pearsonNum v1 v2 : ℝ) / pearsonDen v1 v2)
  | _, _ => 0

/-- Output 4 of `main` (lines 188-218): `some` is the returned correlation,
`none` is `main` returning `None` after a parse exception. -/
noncomputable def correlationStep (popLines : List String) (c1 c2 : String) :
    Option ℝ :=
  (scanDists popLines c1 c2).map (fun d => pearsonR d.1 d.2)

/-! ## Project 2 (`Project 2 .py`) -/

/-- One population record produced by `read_population_file`. -/
structure PopRecord where
  sa2Name : String
  sa2Code : String
  age : String
  population : Int
deriving DecidableEq

/-- One area row as consumed by `clean_data` / `create_area_lookup`:
the fields of the area CSV that the source reads. -/
structure AreaRow where
  sa2Name : String
  sa2Code : String
  sa3Name : String
  sa3Code : String
  stateName : String
  stateCode : String
deriving DecidableEq

/-- The per-SA2 info dict stored in `create_area_lookup`'s result. -/
structure AreaInfo where
  stateName : String
  sa3Name : String
  stateCode : String
  sa3Code : String
  sa2Code : String
deriving DecidableEq

/-! ### `clean_data` (Project 2, lines 94-126) -/

/-- `sa2_code_to_area[row["sa2 code"].lower()] = row` (last row wins). -/
def buildCodeToArea (areas : List AreaRow) : List (String × AreaRow) :=
  areas.foldl (fun m r => alSet m (pyLower r.sa2Code) r) []

/-- The record loop of `clean_data`: keep a population record iff its
`sa2 code` is a key of the area map and its concatenated key
`code + age` is unseen; annotate the joined area row with the record's
`sa2 name`. -/
def cleanAux (m : List (String × AreaRow)) :
    List PopRecord → List String → List AreaRow × List PopRecord
  | [], _ => ([], [])
  | r :: rest, seen =>
    match alookup m r.sa2Code with
    | none => cleanAux m rest seen
    | some ar =>
      if r.sa2Code ++ r.age ∈ seen then cleanAux m rest seen
      else
        let res := cleanAux m rest (seen ++ [r.sa2Code ++ r.age])
        ({ ar with sa2Name := r.sa2Name } :: res.1, r :: res.2)

/-- `clean_data(area_rows, pop_rows)` (Project 2, lines 94-126). -/
def clean_data (areas : List AreaRow) (pops : List PopRecord) :
    List AreaRow × List PopRecord :=
  cleanAux (buildCodeToArea areas) pops []

/-! ### `output_OP1` (Project 2, lines 152-223) -/

/-- The three per-age accumulation dicts `results[age]`. -/
structure AgeLevels where
  stateT : List (String × Int)
  sa3T : List (String × Int)
  sa2T : List (String × Int)
deriving DecidableEq

/-- `results[age][level][name] += pop` with default `0`. -/
def bumpCount (m : List (String × Int)) (k : String) (v : Int) :
    List (String × Int) :=
  alSet m k ((alookup m k).getD 0 + v)

/-- The accumulation pass of `output_OP1` (lines 163-179). -/
def op1Accum (lookup : List (String × AreaInfo))
    (res : List (String × AgeLevels)) (r : PopRecord) : List (String × AgeLevels) :=
  let sa2 := pyLower r.sa2Name
  match alookup lookup sa2 with
  | none => res
  | some info =>
    let cur := (alookup res r.age).getD ⟨[], [], []⟩
    alSet res r.age
      ⟨bumpCount cur.stateT info.stateName r.population,
        bumpCount cur.sa3T info.sa3Name r.population,
        bumpCount cur.sa2T sa2 r.population⟩

/-- One step of the winner-tracking fold of `output_OP1` (lines 186-192):
a strictly larger value resets the tied-key list, an equal value appends. -/
def selStep (acc : Option Int × List String) (p : String × Int) :
    Option Int × List String :=
  match acc.1 with
  | none => (some p.2, [p.1])
  | some mv =>
    if p.2 > mv then (some p.2, [p.1])
    else if p.2 = mv then (acc.1, acc.2 ++ [p.1])
    else acc

/-- The per-level winner selection of `output_OP1` (lines 183-220): track the
maximum value, collect all tied keys, sort them, take the first. `none`
models the `IndexError` on an empty dict (never reached by `output_OP1`). -/
def selectMaxKey (m : List (String × Int)) : Option String :=
  (pySortStr (m.foldl selStep (none, [])).2).head?

/-- `output_OP1(pop_rows, area_lookup)` (Project 2, lines 152-223). -/
def output_OP1 (pops : List PopRecord) (lookup : List (String × AreaInfo)) :
    List (String × (Option String × Option String × Option String)) :=
  let results := pops.foldl (op1Accum lookup) []
  results.map (fun p => (p.1, (selectMaxKey p.2.stateT, selectMaxKey p.2.sa3T, selectMaxKey p.2.sa2T)))

/-! ### `calculate_sample_sd` (Project 2, lines 226-259) -/

/-- Python `sum` of a list of rationals (the source's float accumulation). -/
def listSumQ (l : List ℚ) : ℚ := l.foldl (· + ·) 0

/-- `calculate_sample_sd(numbers)` (Project 2, lines 226-259): `0.0` for
fewer than two data points, else the sample standard deviation
(divisor `n - 1`) rounded to 4 places. -/
noncomputable def calculate_sample_sd (numbers : List ℚ) : ℝ :=
  let n := numbers.length
  if n < 2 then 0
  else
    let mean := listSumQ numbers / (n : ℚ)
    let sq := numbers.foldl (fun acc x => acc + (x - mean) * (x - mean)) 0
    round4 (Real.sqrt ((sq / ((n : ℚ) - 1) : ℚ) : ℝ))

/-! ### `cosine_similarity` and `output_OP3` (Project 2, lines 341-468) -/

/-- `cosine_similarity(list1, list2)` (Project 2, lines 341-369):
`0.0` when either norm is zero, else the rounded cosine. -/
noncomputable def cosine_similarity (l1 l2 : List ℚ) : ℝ :=
  let dot : ℚ := (l1.zip l2).foldl (fun acc p => acc + p.1 * p.2) 0
  let n1 : ℝ := Real.sqrt ((l1.foldl (fun acc x => acc + x * x) 0 : ℚ) : ℝ)
  let n2 : ℝ := Real.sqrt ((l2.foldl (fun acc x => acc + x * x) 0 : ℚ) : ℝ)
  if n1 = 0 ∨ n2 = 0 then 0 else round4 ((dot : ℝ) / (n1 * n2))

/-- An SA2's age dict inside `sa3_to_sa2[sa3]`. -/
abbrev AgeMap := List (String × Int)

/-- One SA3 grouping `sa3_to_sa2[sa3]`: SA2 name → age dict. -/
abbrev Sa3Group := List (String × AgeMap)

/-- The accumulation pass of `output_OP3` (lines 386-398):
`sa3_to_sa2[sa3][sa2][age] = pop` (assignment, not `+=`). -/
def op3Accum (lookup : List (String × AreaInfo))
    (m : List (String × Sa3Group)) (r : PopRecord) : List (String × Sa3Group) :=
  let sa2 := pyLower r.sa2Name
  match alookup lookup sa2 with
  | none => m
  | some info =>
    let g := (alookup m info.sa3Name).getD []
    let ages := (alookup g sa2).getD []
    alSet m info.sa3Name (alSet g sa2 (alSet ages r.age r.population))

/-- `sa3_to_sa2` as built by `output_OP3`'s first loop. -/
def buildSa3Map (pops : List PopRecord) (lookup : List (String × AreaInfo)) :
    List (String × Sa3Group) :=
  pops.foldl (op3Accum lookup) []

/-- `sum(dict.values())` for an age dict. -/
def sumVals (m : AgeMap) : Int := listSumInt (m.map Prod.snd)

/-- The sorted union of the two SA2s' age keys (`all_ages`, lines 411-417). -/
def unionAges (ma mb : AgeMap) : List String :=
  pySortStr (alKeys ma ++ (alKeys mb).filter (fun k => (alookup ma k).isNone))

/-- `[d.get(age, 0) for age in all_ages]`. -/
def pairVector (m : AgeMap) (ages : List String) : List Int :=
  ages.map (fun a => (alookup m a).getD 0)

/-- All index pairs `i < j` of a list, in the source's loop order. -/
def pairsOf {α : Type} : List α → List (α × α)
  | [] => []
  | a :: t => t.map (fun b => (a, b)) ++ pairsOf t

/-- The pair loop of `output_OP3` (lines 406-429) up to, but not including,
the `cosine_similarity` call: for each pair of member SA2s (sorted order,
`i < j`) build the union-age vectors, and skip the pair when either vector
sums to zero. The similarity itself is applied to the surviving entries by
`mkPairs`, which keeps this part evaluable. -/
def mkPairsPre (g : Sa3Group) : List (String × String × List Int × List Int) :=
  (pairsOf (pySortStr (alKeys g))).filterMap (fun q =>
    let ma := (alookup g q.1).getD []
    let mb := (alookup g q.2).getD []
    let ages := unionAges ma mb
    let pa := pairVector ma ages
    let pb := pairVector mb ages
    if listSumInt pa = 0 ∨ listSumInt pb = 0 then none
    else some (q.1, q.2, pa, pb))

/-- The `pairs` list of `output_OP3` (lines 406-429): each surviving pair with
`cosine_similarity` of the two sum-normalised vectors. -/
noncomputable def mkPairs (g : Sa3Group) : List (String × String × ℝ) :=
  (mkPairsPre g).map (fun q =>
    (q.1, q.2.1,
      cosine_similarity
        (q.2.2.1.map (fun (x : Int) => (x : ℚ) / (listSumInt q.2.2.1 : ℚ)))
        (q.2.2.2.map (fun (y : Int) => (y : ℚ) / (listSumInt q.2.2.2 : ℚ)))))

/-- The `max_similarity` fold (lines 433-436). -/
noncomputable def maxSim (pairs : List (String × String × ℝ)) : Option ℝ :=
  pairs.foldl
    (fun m p =>
      match m with
      | none => some p.2.2
      | some M => if p.2.2 > M then some p.2.2 else some M)
    none

/-- `pair_sort_key(pair)` (lines 440-444). -/
def pairKey (g : Sa3Group) (p : String × String × ℝ) : Int × String × String :=
  let pa := sumVals ((alookup g p.1).getD [])
  let pb := sumVals ((alookup g p.2.1).getD [])
  if pyLt p.1 p.2.1 then (-(pa + pb), p.1, p.2.1) else (-(pa + pb), p.2.1, p.1)

/-- Python tuple `<` on `pair_sort_key` values. -/
def keyLt (k1 k2 : Int × String × String) : Bool :=
  decide (k1.1 < k2.1) ||
    (decide (k1.1 = k2.1) &&
      (pyLt k1.2.1 k2.2.1 || (decide (k1.2.1 = k2.2.1) && pyLt k1.2.2 k2.2.2)))

/-- The winner selection of `output_OP3` (lines 430-458): `None` iff `pairs`
is empty (the source's `continue`); otherwise filter the pairs tied at the
maximum similarity, take the key-minimal one (first wins on key ties), and
order the reported pair alphabetically. -/
noncomputable def selectTop (g : Sa3Group) (pairs : List (String × String × ℝ)) :
    Option (String × String × ℝ) :=
  match maxSim pairs with
  | none => none
  | some M =>
    match pairs.filter (fun p => decide (p.2.2 = M)) with
    | [] => none
    | q :: qs =>
      let best := qs.foldl (fun b p => if keyLt (pairKey g p) (pairKey g b) then p else b) q
      some (if pyLt best.1 best.2.1 then best else (best.2.1, best.1, best.2.2))

/-- Processing of one SA3 grouping by `output_OP3` (lines 401-458):
skipped when it has fewer than 15 member SA2s or when every pair is
skipped by the zero-sum guard. -/
noncomputable def processSa3 (g : Sa3Group) : Option (String × String × ℝ) :=
  if (alKeys g).length < 15 then none else selectTop g (mkPairs g)

/-- Ascending sort of an association list by key
(the final `sa3_names.sort()` loop, lines 460-468). -/
def sortByKey {β : Type} (l : List (String × β)) : List (String × β) :=
  List.insertionSort (fun p q => strLe p.1 q.1) l

/-- `output_OP3(pop_rows, area_lookup)` (Project 2, lines 372-468). -/
noncomputable def output_OP3 (pops : List PopRecord)
    (lookup : List (String × AreaInfo)) : List (String × (String × String × ℝ)) :=
  sortByKey ((buildSa3Map pops lookup).filterMap
    (fun p => (processSa3 p.2).map (fun t => (p.1, t))))

/-! ## Supporting lemmas about `parse_area_data` -/

theorem alookup_append_right {β : Type} (m : List (String × β)) (k : String) (v : β)
    (h : alookup m k = none) : alookup (m ++ [(k, v)]) k = some v := by
  induction m with
  | nil => simp [alookup]
  | cons p t ih =>
    obtain ⟨a, b⟩ := p
    by_cases ha : a = k
    · simp [alookup, ha] at h
    · simp [alookup, ha] at h ⊢
      exact ih h

theorem alookup_append_other {β : Type} (m : List (String × β)) {k k' : String} (v : β)
    (h : k' ≠ k) : alookup (m ++ [(k, v)]) k' = alookup m k' := by
  induction m with
  | nil => simp [alookup, Ne.symm h]
  | cons p t ih =>
    obtain ⟨a, b⟩ := p
    by_cases ha : a = k'
    · simp [alookup, ha]
    · simp [alookup, ha, ih]

theorem alKeys_append {β : Type} (m : List (String × β)) (k : String) (v : β) :
    alKeys (m ++ [(k, v)]) = alKeys m ++ [k] := by
  simp [alKeys]

/-- First-occurrence-wins characterization of the `sa2_to_sa3` accumulator. -/
theorem parseAreaAux_sa2 (lines : List String) (acc : AreaMaps) (sa2 : String) :
    alookup (parseAreaAux lines acc).sa2ToSa3 sa2 =
      match alookup acc.sa2ToSa3 sa2 with
      | some v => some v
      | none =>
        ((lines.filterMap parseAreaLine).find?
          (fun r => decide (r.2.2.2 = sa2))).map (fun r => r.2.1) := by
  induction lines generalizing acc with
  | nil =>
    cases h : alookup acc.sa2ToSa3 sa2 <;> simp [parseAreaAux, h]
  | cons line rest ih =>
    cases hp : parseAreaLine line with
    | none =>
      rw [show parseAreaAux (line :: rest) acc = parseAreaAux rest acc by
        simp [parseAreaAux, hp]]
      rw [ih acc]
      simp [hp]
    | some r =>
      obtain ⟨st, s3c, s3n, s2c⟩ := r
      by_cases hseen : (alookup acc.sa2ToSa3 s2c).isSome
      · rw [show parseAreaAux (line :: rest) acc = parseAreaAux rest acc by
          simp [parseAreaAux, hp, hseen]]
        rw [ih acc]
        by_cases heq : s2c = sa2
        · subst heq
          obtain ⟨v, hv⟩ := Option.isSome_iff_exists.mp hseen
          simp [hv]
        · cases h : alookup acc.sa2ToSa3 sa2 <;>
            simp [h, List.find?, hp, heq]
      · set acc' : AreaMaps :=
          { sa2ToSa3 := acc.sa2ToSa3 ++ [(s2c, s3c)]
            sa3ToState := alSet acc.sa3ToState s3c st
            sa3ToName := alSet acc.sa3ToName s3c s3n
            stateToSa3 := alAppend acc.stateToSa3 st s3c } with hacc'
        rw [show parseAreaAux (line :: rest) acc = parseAreaAux rest acc' by
          simp [parseAreaAux, hp, hseen, hacc']]
        rw [ih acc']
        have hnone : alookup acc.sa2ToSa3 s2c = none := by
          cases h : alookup acc.sa2ToSa3 s2c
          · rfl
          · rw [h] at hseen
            simp at hseen
        by_cases heq : s2c = sa2
        · subst heq
          have : alookup acc'.sa2ToSa3 s2c = some s3c := by
            rw [hacc']
            exact alookup_append_right _ _ _ hnone
          simp [this, hnone, List.find?, hp]
        · have : alookup acc'.sa2ToSa3 sa2 = alookup acc.sa2ToSa3 sa2 := by
            rw [hacc']
            exact alookup_append_other _ _ (Ne.symm heq)
          rw [this]
          cases h : alookup acc.sa2ToSa3 sa2 <;>
            simp [h, List.find?, hp, heq]

/-- The accumulator's key lists stay duplicate-free. -/
theorem parseAreaAux_nodup (lines : List String) (acc : AreaMaps)
    (h1 : (alKeys acc.sa2ToSa3).Nodup) (h2 : (alKeys acc.sa3ToState).Nodup)
    (h3 : (alKeys acc.sa3ToName).Nodup) :
    (alKeys (parseAreaAux lines acc).sa2ToSa3).Nodup ∧
      (alKeys (parseAreaAux lines acc).sa3ToState).Nodup ∧
      (alKeys (parseAreaAux lines acc).sa3ToName).Nodup := by
  induction lines generalizing acc with
  | nil => exact ⟨h1, h2, h3⟩
  | cons line rest ih =>
    cases hp : parseAreaLine line with
    | none =>
      rw [show parseAreaAux (line :: rest) acc = parseAreaAux rest acc by
        simp [parseAreaAux, hp]]
      exact ih acc h1 h2 h3
    | some r =>
      obtain ⟨st, s3c, s3n, s2c⟩ := r
      by_cases hseen : (alookup acc.sa2ToSa3 s2c).isSome
      · rw [show parseAreaAux (line :: rest) acc = parseAreaAux rest acc by
          simp [parseAreaAux, hp, hseen]]
        exact ih acc h1 h2 h3
      · rw [show parseAreaAux (line :: rest) acc = parseAreaAux rest
            { sa2ToSa3 := acc.sa2ToSa3 ++ [(s2c, s3c)]
              sa3ToState := alSet acc.sa3ToState s3c st
              sa3ToName := alSet acc.sa3ToName s3c s3n
              stateToSa3 := alAppend acc.stateToSa3 st s3c } by
          simp [parseAreaAux, hp, hseen]]
      
        refine ih _ ?_ (alKeys_nodup_alSet _ _ h2) (alKeys_nodup_alSet _ _ h3)
        rw [alKeys_append]
        have : s2c ∉ alKeys acc.sa2ToSa3 := by
          rw [← alookup_eq_none]
          cases h : alookup acc.sa2ToSa3 s2c
          · rfl
          · rw [h] at hseen
            simp at hseen
        simpa [List.nodup_append] using ⟨h1, this⟩

theorem alookup_map_sortdedup (m : List (String × List String)) (k : String) :
    alookup (m.map (fun p => (p.1, pySortStr p.2.dedup))) k =
      (alookup m k).map (fun l => pySortStr l.dedup) := by
  induction m with
  | nil => simp [alookup]
  | cons p t ih =>
    obtain ⟨a, b⟩ := p
    by_cases ha : a = k
    · simp [alookup, ha]
    · simp [alookup, ha, ih]

/-! ## Claim C4: hierarchy-index invariants of `parse_area_data` -/

/-- Area CSV with one SA3 code appearing under two different states
(distinct, unseen SA2 codes, so neither row is skipped). -/
def c4Lines : List String :=
  ["Code,State,SA3 code,SA3 name,SA2 code",
   "0,StateA,300,NameX,200000001",
   "0,StateB,300,NameY,200000002"]

/-- C4 counterexample: `parse_area_data` puts the same `sa3_code` into the
SA3 lists of two different states when source rows disagree on the state of
an SA3, so the claim's "no sa3_code appears in the SA3 lists of two
different states" fails. -/
theorem claim_C4_counterexample :
    alookup (parse_area_data c4Lines).stateToSa3 "statea" = some ["300"] ∧
      alookup (parse_area_data c4Lines).stateToSa3 "stateb" = some ["300"] ∧
      ("statea" : String) ≠ "stateb" ∧
      ("300" : String) ∈ ["300"] := by
  refine ⟨by decide, by decide, by decide, by decide⟩

/-- C4 (amended): the `sa2_to_sa3`, `sa3_to_state` and `sa3_to_name` dicts are
functional (duplicate-free key lists); `sa2_to_sa3` is first-occurrence-wins
over the parsed rows (rows with an already-seen `sa2_code` are ignored); and
every per-state SA3 list is deduplicated and sorted ascending.  (The claim's
"no sa3_code appears in the SA3 lists of two different states" is dropped:
it fails when two rows give one SA3 two states, see the counterexample.) -/
theorem claim_C4_amended (lines : List String) :
    (alKeys (parse_area_data lines).sa2ToSa3).Nodup ∧
      (alKeys (parse_area_data lines).sa3ToState).Nodup ∧
      (alKeys (parse_area_data lines).sa3ToName).Nodup ∧
      (∀ sa2, alookup (parse_area_data lines).sa2ToSa3 sa2 =
        (((lines.drop 1).filterMap parseAreaLine).find?
          (fun r => decide (r.2.2.2 = sa2))).map (fun r => r.2.1)) ∧
      (∀ st l, alookup (parse_area_data lines).stateToSa3 st = some l →
        l.Nodup ∧ List.Sorted strLe l) := by
  have hnodup := parseAreaAux_nodup (lines.drop 1) ⟨[], [], [], []⟩
    (by simp [alKeys]) (by simp [alKeys]) (by simp [alKeys])
  refine ⟨hnodup.1, hnodup.2.1, hnodup.2.2, ?_, ?_⟩
  · intro sa2
    have := parseAreaAux_sa2 (lines.drop 1) ⟨[], [], [], []⟩ sa2
    simpa [parse_area_data, alookup] using this
  · intro st l hl
    dsimp only [parse_area_data] at hl
    rw [alookup_map_sortdedup] at hl
    obtain ⟨l0, hl0, hfl⟩ := Option.map_eq_some'.mp hl
    constructor
    · rw [← hfl]
      exact (pySortStr_perm l0.dedup).nodup_iff.mpr l0.nodup_dedup
    · rw [← hfl]
      exact pySortStr_sorted l0.dedup

/-- Witness for C4 (amended) at a concrete area CSV. -/
theorem claim_C4_amended_witness :
    alookup (parse_area_data c4Lines).stateToSa3 "statea" = some ["300"] ∧
      (["300"] : List String).Nodup ∧ List.Sorted strLe ["300"] ∧
      alookup (parse_area_data c4Lines).sa2ToSa3 "200000001" =
        ((((c4Lines).drop 1).filterMap parseAreaLine).find?
          (fun r => decide (r.2.2.2 = "200000001"))).map (fun r => r.2.1) := by
  have h := claim_C4_amended c4Lines
  have hme : alookup (parse_area_data c4Lines).stateToSa3 "statea" = some ["300"] := by
    decide
  exact ⟨hme, (h.2.2.2.2 "statea" ["300"] hme).1, (h.2.2.2.2 "statea" ["300"] hme).2,
    h.2.2.2.1 "200000001"⟩

/-! ## Claim C10: the three winners of `output_OP1` need not be nested -/

/-- Area lookup for the C10 instance: states `p`, `q`; SA3s `z`, `v` in `p`
and `y` in `q`. -/
def op1DemoLookup : List (String × AreaInfo) :=
  [("d", ⟨"p", "z", "pc", "zc", "dc"⟩),
   ("c1", ⟨"q", "y", "qc", "yc", "c1c"⟩),
   ("c2", ⟨"q", "y", "qc", "yc", "c2c"⟩),
   ("e1", ⟨"p", "v", "pc", "vc", "e1c"⟩),
   ("e2", ⟨"p", "v", "pc", "vc", "e2c"⟩)]

/-- Populations for the C10 instance: state totals `p = 27 > q = 18`;
SA3 totals `y = 18 > v = 17 > z = 10`; SA2 maximum `d = 10`. -/
def op1DemoPops : List PopRecord :=
  [⟨"d", "dc", "0-4", 10⟩, ⟨"c1", "c1c", "0-4", 9⟩, ⟨"c2", "c2c", "0-4", 9⟩,
   ⟨"e1", "e1c", "0-4", 9⟩, ⟨"e2", "e2c", "0-4", 8⟩]

/-- C10: `output_OP1` picks each level's winner independently, so the winners
need not be nested: here the winning SA2 `d` lies in SA3 `z`, not in the
winning SA3 `y`, and the winning SA3 `y` lies (per every member of `y`) in
state `q`, not in the winning state `p`. -/
theorem claim_C10 :
    output_OP1 op1DemoPops op1DemoLookup = [("0-4", (some "p", some "y", some "d"))] ∧
      (alookup op1DemoLookup "d").map AreaInfo.sa3Name = some "z" ∧
      ("z" : String) ≠ "y" ∧
      (∀ p ∈ op1DemoLookup, p.2.sa3Name = "y" → p.2.stateName = "q") ∧
      ("q" : String) ≠ "p" := by
  refine ⟨by decide, by decide, by decide, by decide, by decide⟩

/-! ## Claim C5: `match_age_to_group` totality / uniqueness -/

/-- C5 counterexample: a bucket set covering `[0, ∞)` with no gaps in which
two distinct buckets match age 5, so "exactly one bucket matches" fails
(covering does not force disjointness). -/
theorem claim_C5_counterexample :
    (∀ a : Int, 0 ≤ a →
      ∃ l ∈ (["0-86", "5-86", "85 and over"] : List String), labelMatches a l = true) ∧
      labelMatches 5 "0-86" = true ∧ labelMatches 5 "5-86" = true ∧
      ("0-86" : String) ≠ "5-86" := by
  refine ⟨?_, by decide, by decide, by decide⟩
  intro a ha
  by_cases h : a ≤ 86
  · refine ⟨"0-86", by simp, ?_⟩
    have h1 : isOpenEnded "0-86" = false := by decide
    have h2 : parseRange "0-86" = some (0, 86) := by decide
    simp [labelMatches, h1, h2]
    omega
  · refine ⟨"85 and over", by simp, ?_⟩
    have h1 : isOpenEnded "85 and over" = true := by decide
    simp [labelMatches, h1]
    omega

/-- C5 (amended): for every age and bucket-label list, `match_age_to_group`
returns the FIRST matching label together with its open-ended flag (so under
a covering bucket set at least one bucket matches and a label is returned);
an open-ended (`"85 and over"`) label matches exactly when `age ≥ 85`, a
closed `low-high` label matches exactly when `low ≤ age ≤ high`, malformed
labels never match and are skipped, and `(None, False)` is returned exactly
when no label matches.  Uniqueness of the matching bucket is dropped: it
fails for overlapping covering bucket sets (see the counterexample). -/
theorem claim_C5_amended :
    (∀ (age : Int) (labels : List String),
      match_age_to_group age labels =
        (labels.find? (labelMatches age),
          ((labels.find? (labelMatches age)).map isOpenEnded).getD false)) ∧
      (∀ (age : Int) (label : String), isOpenEnded label = true →
        (labelMatches age label = true ↔ 85 ≤ age)) ∧
      (∀ (age : Int) (label : String) (lo hi : Nat), isOpenEnded label = false →
        parseRange label = some (lo, hi) →
        (labelMatches age label = true ↔ (lo : Int) ≤ age ∧ age ≤ (hi : Int))) ∧
      (∀ (age : Int) (label : String), isOpenEnded label = false →
        parseRange label = none → labelMatches age label = false) ∧
      (∀ (age : Int) (labels : List String),
        match_age_to_group age labels = (none, false) ↔
          ∀ l ∈ labels, labelMatches age l = false) := by
  have hchar : ∀ (age : Int) (labels : List String),
      match_age_to_group age labels =
        (labels.find? (labelMatches age),
          ((labels.find? (labelMatches age)).map isOpenEnded).getD false) := by
    intro age labels
    induction labels with
    | nil => simp [match_age_to_group, List.find?]
    | cons label rest ih =>
      by_cases hopen : isOpenEnded label = true
      · by_cases hage : 85 ≤ age
        · have hm : labelMatches age label = true := by
            simp [labelMatches, hopen, hage]
          simp [match_age_to_group, hopen, hage, List.find?, hm]
        · have hm : labelMatches age label = false := by
            simp [labelMatches, hopen, hage]
          simp [match_age_to_group, hopen, hage, List.find?, hm, ih]
      · rw [Bool.not_eq_true] at hopen
        cases hr : parseRange label with
        | none =>
          have hm : labelMatches age label = false := by
            simp [labelMatches, hopen, hr]
          simp [match_age_to_group, hopen, hr, List.find?, hm, ih]
        | some p =>
          obtain ⟨lo, hi⟩ := p
          by_cases hcond : (lo : Int) ≤ age ∧ age ≤ (hi : Int)
          · have hm : labelMatches age label = true := by
              simp [labelMatches, hopen, hr, hcond.1, hcond.2]
            simp [match_age_to_group, hopen, hr, hcond, List.find?, hm]
          · have hm : labelMatches age label = false := by
              simp only [labelMatches, hopen, Bool.false_eq_true, if_false, hr]
              rcases Decidable.em ((lo : Int) ≤ age) with h1 | h1
              · have h2 : ¬ age ≤ (hi : Int) := fun hc => hcond ⟨h1, hc⟩
                simp [h2]
              · simp [h1]
            simp [match_age_to_group, hopen, hr, hcond, List.find?, hm, ih]
  refine ⟨hchar, ?_, ?_, ?_, ?_⟩
  · intro age label h
    simp [labelMatches, h]
  · intro age label lo hi h hr
    simp [labelMatches, h, hr]
  · intro age label h hr
    simp [labelMatches, h, hr]
  · intro age labels
    rw [hchar age labels]
    constructor
    · intro h l hl
      have hfind : labels.find? (labelMatches age) = none := by
        cases hf : labels.find? (labelMatches age) with
        | none => rfl
        | some x =>
          rw [hf] at h
          simp at h
      rw [List.find?_eq_none] at hfind
      exact Bool.eq_false_iff.mpr (fun hc => (hfind l hl) hc)
    · intro h
      have : labels.find? (labelMatches age) = none :=
        List.find?_eq_none.mpr (fun x hx => by simp [h x hx])
      simp [this]

/-- Witness for C5 (amended) at concrete inputs. -/
theorem claim_C5_amended_witness :
    match_age_to_group 27 ["0-24", "25-29", "85 and over"] =
        ((["0-24", "25-29", "85 and over"] : List String).find? (labelMatches 27),
          (((["0-24", "25-29", "85 and over"] : List String).find?
            (labelMatches 27)).map isOpenEnded).getD false) ∧
      isOpenEnded "85 and over" = true ∧ (labelMatches 90 "85 and over" = true ↔ 85 ≤ (90 : Int)) ∧
      isOpenEnded "25-29" = false ∧ parseRange "25-29" = some (25, 29) ∧
      (labelMatches 27 "25-29" = true ↔ (25 : Int) ≤ 27 ∧ (27 : Int) ≤ 29) := by
  have h := claim_C5_amended
  exact ⟨h.1 27 _, by decide, h.2.1 90 "85 and over" (by decide), by decide, by decide,
    h.2.2.1 27 "25-29" 25 29 (by decide) (by decide)⟩

/-! ## Claim C6: sample standard deviation policy -/

theorem foldl_add_map {M α : Type} [AddCommMonoid M] (f : α → M) (l : List α)
    (a : M) : l.foldl (fun acc x => acc + f x) a = a + (l.map f).sum := by
  induction l generalizing a with
  | nil => simp
  | cons x t ih => simp [ih, add_assoc]

theorem listSumQ_eq (l : List ℚ) : listSumQ l = l.sum := by
  have := foldl_add_map (fun x : ℚ => x) l 0
  simpa [listSumQ] using this

theorem listSumInt_eq (l : List Int) : listSumInt l = l.sum := by
  have := foldl_add_map (fun x : Int => x) l 0
  simpa [listSumInt] using this

/-- The rational values of an integer list. -/
def castQ (v : List Int) : List ℚ := v.map (fun (x : Int) => (x : ℚ))

theorem castQ_nil : castQ [] = [] := rfl

theorem castQ_cons (x : Int) (t : List Int) : castQ (x :: t) = (x : ℚ) :: castQ t := rfl

theorem castQ_length (v : List Int) : (castQ v).length = v.length := by
  induction v with
  | nil => rfl
  | cons x t ih => simp only [castQ_cons, List.length_cons, ih]

theorem castQ_sum (v : List Int) : (castQ v).sum = ((v.sum : Int) : ℚ) := by
  induction v with
  | nil => simp [castQ_nil]
  | cons x t ih => simp only [castQ_cons, List.sum_cons, ih, Int.cast_add]

theorem castQ_map_sum (v : List Int) (f : ℚ → ℚ) :
    ((castQ v).map f).sum = (v.map (fun (x : Int) => f (x : ℚ))).sum := by
  induction v with
  | nil => simp [castQ_nil]
  | cons x t ih => simp only [castQ_cons, List.map_cons, List.sum_cons, ih]

theorem sqSumAbout_eq (v : List Int) (m : ℚ) :
    sqSumAbout v m = (v.map (fun (x : Int) => ((x : ℚ) - m) ^ 2)).sum := by
  have := foldl_add_map (fun x : Int => ((x : ℚ) - m) ^ 2) v 0
  simpa [sqSumAbout] using this

/-- Modelled from the spec: the sample variance of a list, divisor `n - 1`
(the textbook formula, for comparison with the code's accumulation loops). -/
def specSampleVar (l : List ℚ) : ℚ :=
  (l.map (fun x => (x - l.sum / (l.length : ℚ)) ^ 2)).sum / ((l.length : ℚ) - 1)

/-- C6: both statistics routines use the sample standard deviation with
divisor `n - 1` once there are at least 2 data points, return `0.0` for a
single data point, and return `0.0` (and mean `0.0` in Project 1) for no
data points; with `n ≥ 2` they agree with the textbook sample variance and
with each other. -/
theorem claim_C6 :
    calculate_sample_sd [] = 0 ∧
      (∀ x : ℚ, calculate_sample_sd [x] = 0) ∧
      p1Stats [] = (0, 0) ∧
      (∀ x : Int, (p1Stats [x]).2 = 0) ∧
      (∀ l : List ℚ, 2 ≤ l.length →
        calculate_sample_sd l = round4 (Real.sqrt ((specSampleVar l : ℚ) : ℝ))) ∧
      (∀ v : List Int, 2 ≤ v.length →
        (p1Stats v).2 = round4 (Real.sqrt ((specSampleVar (castQ v) : ℚ) : ℝ))) ∧
      (∀ v : List Int, 2 ≤ v.length →
        (p1Stats v).2 = calculate_sample_sd (castQ v)) := by
  have hsd : ∀ l : List ℚ, 2 ≤ l.length →
      calculate_sample_sd l = round4 (Real.sqrt ((specSampleVar l : ℚ) : ℝ)) := by
    intro l hl
    have hn : ¬ l.length < 2 := by omega
    have hfold : l.foldl (fun acc x => acc + (x - listSumQ l / (l.length : ℚ)) *
        (x - listSumQ l / (l.length : ℚ))) 0 =
        (l.map (fun x => (x - l.sum / (l.length : ℚ)) ^ 2)).sum := by
      have h1 := foldl_add_map
        (fun x : ℚ => (x - listSumQ l / (l.length : ℚ)) * (x - listSumQ l / (l.length : ℚ))) l 0
      rw [h1, listSumQ_eq, zero_add]
      have hfun : (fun x : ℚ => (x - l.sum / (l.length : ℚ)) * (x - l.sum / (l.length : ℚ))) =
          (fun x : ℚ => (x - l.sum / (l.length : ℚ)) ^ 2) := by
        funext x
        rw [sq]
      rw [hfun]
    simp only [calculate_sample_sd, hn, if_false]
    rw [hfold]
    rfl
  have hp1 : ∀ v : List Int, 2 ≤ v.length →
      (p1Stats v).2 = round4 (Real.sqrt ((specSampleVar (castQ v) : ℚ) : ℝ)) := by
    intro v hv
    have hne : ¬ v.isEmpty = true := by
      cases v with
      | nil => simp at hv
      | cons a t => simp
    have hgt : 1 < v.length := by omega
    have h0 : (p1Stats v).2 =
        round4 (Real.sqrt ((sqSumAbout v (listMeanQ v) / ((v.length : ℚ) - 1) : ℚ) : ℝ)) := by
      unfold p1Stats
      rw [if_neg (by simpa using hne)]
      dsimp only
      rw [if_pos hgt]
    rw [h0]
    have hmean : listMeanQ v = (castQ v).sum / ((castQ v).length : ℚ) := by
      rw [listMeanQ, listSumInt_eq, castQ_sum, castQ_length]
    have hsq : sqSumAbout v (listMeanQ v) =
        ((castQ v).map (fun x => (x - (castQ v).sum / ((castQ v).length : ℚ)) ^ 2)).sum := by
      rw [sqSumAbout_eq, castQ_map_sum, hmean]
    rw [specSampleVar, ← hsq, castQ_length]
  refine ⟨by simp [calculate_sample_sd], ?_, by simp [p1Stats], ?_, hsd, hp1, ?_⟩
  · intro x
    simp [calculate_sample_sd]
  · intro x
    simp [p1Stats, round4_zero]
  · intro v hv
    rw [hp1 v hv, hsd (castQ v) (by rw [castQ_length]; exact hv)]

/-- Witness for C6 at a concrete two-element list. -/
theorem claim_C6_witness :
    2 ≤ ([(1 : ℚ), 3]).length ∧
      calculate_sample_sd [(1 : ℚ), 3] =
        round4 (Real.sqrt ((specSampleVar [(1 : ℚ), 3] : ℚ) : ℝ)) ∧
      2 ≤ ([(1 : Int), 3]).length ∧
      (p1Stats [(1 : Int), 3]).2 = calculate_sample_sd (castQ [(1 : Int), 3]) := by
  refine ⟨by decide, claim_C6.2.2.2.2.1 [(1 : ℚ), 3] (by decide), by decide,
    claim_C6.2.2.2.2.2.2 [(1 : Int), 3] (by decide)⟩

/-! ## Claim C3: extremal search with deterministic tie-break -/

theorem le_foldl_max (vals : List Int) (w : Int) : w ≤ vals.foldl max w := by
  induction vals generalizing w with
  | nil => simp
  | cons v t ih => exact le_trans (le_max_left w v) (ih (max w v))

theorem maxStep_some (vals : List Int) (w : Int) :
    vals.foldl maxStep (some w) = some (vals.foldl max w) := by
  induction vals generalizing w with
  | nil => rfl
  | cons v t ih => simp [maxStep, ih]

theorem maxValOf_cons (p : String × Int) (t : List (String × Int)) :
    maxValOf (p :: t) = some ((t.map Prod.snd).foldl max p.2) := by
  simp [maxValOf, maxStep, maxStep_some]

/-- Characterization of the tied-key-tracking fold started at a known
maximum `M` with collected ties `ties`. -/
theorem selStep_fold (m : List (String × Int)) (M : Int) (ties : List String) :
    m.foldl selStep (some M, ties) =
      (some ((m.map Prod.snd).foldl max M),
        (if (m.map Prod.snd).foldl max M = M then ties else []) ++
          (m.filter (fun p => p.2 = (m.map Prod.snd).foldl max M)).map Prod.fst) := by
  induction m generalizing M ties with
  | nil => simp
  | cons p t ih =>
    have hMf : ((p :: t).map Prod.snd).foldl max M =
        (t.map Prod.snd).foldl max (max M p.2) := by
      simp
    rcases lt_trichotomy M p.2 with hlt | heq | hgt
    · have hmax : max M p.2 = p.2 := max_eq_right (le_of_lt hlt)
      have hstep : selStep (some M, ties) p = (some p.2, [p.1]) := by
        simp [selStep, hlt]
      rw [List.foldl_cons, hstep, ih p.2 [p.1], hMf, hmax, List.filter_cons]
      set X := (t.map Prod.snd).foldl max p.2 with hX
      set F := t.filter (fun q => decide (q.2 = X)) with hF
      have hXM : ¬ X = M := by
        have := le_foldl_max (t.map Prod.snd) p.2
        omega
      rw [if_neg hXM]
      by_cases hp : p.2 = X
      · have e1 : (if X = p.2 then [p.1] else ([] : List String)) = [p.1] :=
          if_pos hp.symm
        have e2 : (if decide (p.2 = X) = true then p :: F else F) = p :: F :=
          if_pos (decide_eq_true hp)
        rw [e1, e2, List.map_cons]
        simp
      · have e1 : (if X = p.2 then [p.1] else ([] : List String)) = [] :=
          if_neg (fun h => hp h.symm)
        have e2 : (if decide (p.2 = X) = true then p :: F else F) = F := by
          rw [if_neg]
          intro h
          exact hp (of_decide_eq_true h)
        rw [e1, e2]
    · have hstep : selStep (some M, ties) p = (some M, ties ++ [p.1]) := by
        simp [selStep, ← heq]
      have hmax : max M p.2 = M := by omega
      rw [List.foldl_cons, hstep, ih M (ties ++ [p.1]), hMf, hmax, List.filter_cons]
      set X := (t.map Prod.snd).foldl max M with hX
      set F := t.filter (fun q => decide (q.2 = X)) with hF
      by_cases hM : X = M
      · have hp : p.2 = X := by omega
        have e2 : (if decide (p.2 = X) = true then p :: F else F) = p :: F :=
          if_pos (decide_eq_true hp)
        rw [if_pos hM, if_pos hM, e2, List.map_cons]
        simp
      · have hp : ¬ p.2 = X := by
          have := le_foldl_max (t.map Prod.snd) M
          omega
        have e2 : (if decide (p.2 = X) = true then p :: F else F) = F := by
          rw [if_neg]
          intro h
          exact hp (of_decide_eq_true h)
        rw [if_neg hM, if_neg hM, e2]
    · have hstep : selStep (some M, ties) p = (some M, ties) := by
        have h1 : ¬ p.2 > M := by omega
        have h2 : ¬ p.2 = M := by omega
        simp [selStep, h1, h2]
      have hmax : max M p.2 = M := by omega
      rw [List.foldl_cons, hstep, ih M ties, hMf, hmax, List.filter_cons]
      set X := (t.map Prod.snd).foldl max M with hX
      set F := t.filter (fun q => decide (q.2 = X)) with hF
      have hp : ¬ p.2 = X := by
        have := le_foldl_max (t.map Prod.snd) M
        omega
      have e2 : (if decide (p.2 = X) = true then p :: F else F) = F := by
        rw [if_neg]
        intro h
        exact hp (of_decide_eq_true h)
      rw [e2]

/-- The `output_OP1` winner fold computes exactly the spec's
"maximum, then lexicographically smallest tied key". -/
theorem selectMaxKey_eq (m : List (String × Int)) :
    selectMaxKey m = argmaxMinKey m := by
  cases m with
  | nil => rfl
  | cons p t =>
    have hstep0 : selStep (none, []) p = (some p.2, [p.1]) := rfl
    rw [selectMaxKey, List.foldl_cons, hstep0, selStep_fold t p.2 [p.1]]
    rw [argmaxMinKey, maxValOf_cons, pySortStr_head_eq_min]
    dsimp only
    rw [List.filter_cons]
    set X := (t.map Prod.snd).foldl max p.2 with hX
    set F := t.filter (fun q => decide (q.2 = X)) with hF
    by_cases hp : p.2 = X
    · have e1 : (if X = p.2 then [p.1] else ([] : List String)) = [p.1] :=
        if_pos hp.symm
      have e2 : (if decide (p.2 = X) = true then p :: F else F) = p :: F :=
        if_pos (decide_eq_true hp)
      rw [e1, e2, List.map_cons]
      simp
    · have e1 : (if X = p.2 then [p.1] else ([] : List String)) = [] :=
        if_neg (fun h => hp h.symm)
      have e2 : (if decide (p.2 = X) = true then p :: F else F) = F := by
        rw [if_neg]
        intro h
        exact hp (of_decide_eq_true h)
      rw [e1, e2]
      simp

theorem selectMaxKey_perm {m m' : List (String × Int)} (hp : m.Perm m') :
    selectMaxKey m = selectMaxKey m' := by
  rw [selectMaxKey_eq, selectMaxKey_eq]
  exact argmaxMinKey_perm hp

/-- Two string lists with mutually dominating elements have the same least
element. -/
theorem minKeyOf_congr {l1 l2 : List String} (h1 : l1 ≠ []) (h2 : l2 ≠ [])
    (h12 : ∀ x ∈ l1, ∃ y ∈ l2, strLe y x)
    (h21 : ∀ x ∈ l2, ∃ y ∈ l1, strLe y x) : minKeyOf l1 = minKeyOf l2 := by
  obtain ⟨m1, hm1, hmem1, hall1⟩ := minKeyOf_spec h1
  obtain ⟨m2, hm2, hmem2, hall2⟩ := minKeyOf_spec h2
  obtain ⟨y2, hy2, hle2⟩ := h12 m1 hmem1
  obtain ⟨y1, hy1, hle1⟩ := h21 m2 hmem2
  have ha : strLe m1 m2 := pyLe_trans (hall1 y1 hy1) hle1
  have hb : strLe m2 m1 := pyLe_trans (hall2 y2 hy2) hle2
  rw [hm1, hm2, strLe_eq ha hb]

theorem maxValOf_cons_cons (k1 : String) (v1 : Int) (k2 : String) (v2 : Int)
    (t : List (String × Int)) :
    maxValOf ((k1, v1) :: (k2, v2) :: t) =
      some ((t.map Prod.snd).foldl max (max v1 v2)) := by
  rw [maxValOf_cons]
  simp

/-- Dropping the head when a later head strictly dominates it. -/
theorem argmax_drop_first_lt {a : String} {v1 : Int} {b : String} {v2 : Int}
    {t : List (String × Int)} (h : v1 < v2) :
    maxValOf ((a, v1) :: (b, v2) :: t) = maxValOf ((b, v2) :: t) ∧
      argmaxMinKey ((a, v1) :: (b, v2) :: t) = argmaxMinKey ((b, v2) :: t) := by
  have hmax : max v1 v2 = v2 := max_eq_right (le_of_lt h)
  have hM : maxValOf ((a, v1) :: (b, v2) :: t) = maxValOf ((b, v2) :: t) := by
    rw [maxValOf_cons_cons, maxValOf_cons, hmax]
  refine ⟨hM, ?_⟩
  rw [argmaxMinKey, argmaxMinKey, hM, maxValOf_cons]
  dsimp only
  set X := (t.map Prod.snd).foldl max v2 with hX
  have hne : ¬ v1 = X := by
    have := le_foldl_max (t.map Prod.snd) v2
    omega
  rw [List.filter_cons]
  rw [if_neg (by simpa using hne)]

/-- Dropping the second entry when the head strictly dominates it. -/
theorem argmax_drop_second_lt {a : String} {v1 : Int} {b : String} {v2 : Int}
    {t : List (String × Int)} (h : v2 < v1) :
    maxValOf ((a, v1) :: (b, v2) :: t) = maxValOf ((a, v1) :: t) ∧
      argmaxMinKey ((a, v1) :: (b, v2) :: t) = argmaxMinKey ((a, v1) :: t) := by
  have hmax : max v1 v2 = v1 := max_eq_left (le_of_lt h)
  have hM : maxValOf ((a, v1) :: (b, v2) :: t) = maxValOf ((a, v1) :: t) := by
    rw [maxValOf_cons_cons, maxValOf_cons, hmax]
  refine ⟨hM, ?_⟩
  rw [argmaxMinKey, argmaxMinKey, hM, maxValOf_cons]
  dsimp only
  set X := (t.map Prod.snd).foldl max v1 with hX
  have hne : ¬ v2 = X := by
    have := le_foldl_max (t.map Prod.snd) v1
    omega
  rw [List.filter_cons, List.filter_cons, List.filter_cons]
  have e2 : (if decide ((b, v2).2 = X) = true then
      (b, v2) :: List.filter (fun p => decide (p.2 = X)) t
      else List.filter (fun p => decide (p.2 = X)) t) =
      List.filter (fun p => decide (p.2 = X)) t := by
    rw [if_neg]
    intro hc
    exact hne (of_decide_eq_true hc)
  rw [e2]

/-- With two entries tied at the head value, the one that is
lexicographically ≥ the other can be dropped. -/
theorem argmax_drop_tied {a b : String} {v : Int} {t : List (String × Int)}
    (h : strLe a b) :
    maxValOf ((a, v) :: (b, v) :: t) = maxValOf ((a, v) :: t) ∧
      argmaxMinKey ((a, v) :: (b, v) :: t) = argmaxMinKey ((a, v) :: t) := by
  have hmax : max v v = v := max_self v
  have hM : maxValOf ((a, v) :: (b, v) :: t) = maxValOf ((a, v) :: t) := by
    rw [maxValOf_cons_cons, maxValOf_cons, hmax]
  refine ⟨hM, ?_⟩
  rw [argmaxMinKey, argmaxMinKey, hM, maxValOf_cons]
  dsimp only
  set X := (t.map Prod.snd).foldl max v with hX
  set F := t.filter (fun q => decide (q.2 = X)) with hF
  rw [List.filter_cons, List.filter_cons, List.filter_cons]
  by_cases hv : v = X
  · rw [if_pos (decide_eq_true hv), if_pos (decide_eq_true hv),
      if_pos (decide_eq_true hv), List.map_cons, List.map_cons, List.map_cons]
    refine minKeyOf_congr (by simp) (by simp) ?_ ?_
    · intro x hx
      rcases List.mem_cons.mp hx with h' | hx2
      · exact ⟨a, by simp, h' ▸ pyLe_refl a⟩
      · rcases List.mem_cons.mp hx2 with h' | hx3
        · exact ⟨a, by simp, h' ▸ h⟩
        · exact ⟨x, by simp [hx3], pyLe_refl x⟩
    · intro x hx
      rcases List.mem_cons.mp hx with h' | hx2
      · exact ⟨a, by simp, h' ▸ pyLe_refl a⟩
      · exact ⟨x, by simp [hx2], pyLe_refl x⟩
  · rw [if_neg (by simpa using hv), if_neg (by simpa using hv),
      if_neg (by simpa using hv)]

/-- Symmetric variant of `argmax_drop_tied`: drop the head instead. -/
theorem argmax_drop_tied_head {a b : String} {v : Int} {t : List (String × Int)}
    (h : strLe b a) :
    maxValOf ((a, v) :: (b, v) :: t) = maxValOf ((b, v) :: t) ∧
      argmaxMinKey ((a, v) :: (b, v) :: t) = argmaxMinKey ((b, v) :: t) := by
  have hmax : max v v = v := max_self v
  have hM : maxValOf ((a, v) :: (b, v) :: t) = maxValOf ((b, v) :: t) := by
    rw [maxValOf_cons_cons, maxValOf_cons, hmax]
  refine ⟨hM, ?_⟩
  rw [argmaxMinKey, argmaxMinKey, hM, maxValOf_cons]
  dsimp only
  set X := (t.map Prod.snd).foldl max v with hX
  rw [List.filter_cons, List.filter_cons]
  by_cases hv : v = X
  · rw [if_pos (decide_eq_true hv), if_pos (decide_eq_true hv),
      List.map_cons, List.map_cons]
    refine minKeyOf_congr (by simp) (by simp) ?_ ?_
    · intro x hx
      rcases List.mem_cons.mp hx with h' | hx2
      · exact ⟨b, by simp, h' ▸ h⟩
      · rcases List.mem_cons.mp hx2 with h' | hx3
        · exact ⟨b, by simp, h' ▸ pyLe_refl b⟩
        · exact ⟨x, by simp [hx3], pyLe_refl x⟩
    · intro x hx
      rcases List.mem_cons.mp hx with h' | hx2
      · exact ⟨b, by simp, h' ▸ pyLe_refl b⟩
      · exact ⟨x, by simp [hx2], pyLe_refl x⟩
  · rw [if_neg (by simpa using hv), if_neg (by simpa using hv)]

/-- The Project 1 winner loop, once a candidate is held, computes the
maximum and the lexicographically smallest tied key, and never raises. -/
theorem p1FindMaxAux_spec (tot : String → Int) (rest : List String) :
    ∀ (mc : Int) (m : String),
      p1FindMaxAux tot rest mc (some m) =
        .ok ((maxValOf ((m, mc) :: rest.map (fun s => (s, tot s)))).getD 0,
          argmaxMinKey ((m, mc) :: rest.map (fun s => (s, tot s)))) := by
  induction rest with
  | nil =>
    intro mc m
    rw [show p1FindMaxAux tot [] mc (some m) = .ok (mc, some m) from rfl]
    rw [maxValOf_cons]
    rw [argmaxMinKey, maxValOf_cons]
    simp [minKeyOf, List.filter_cons]
  | cons s rest' ih =>
    intro mc m
    rcases lt_trichotomy mc (tot s) with hlt | heq | hgt
    · have hstep : p1FindMaxAux tot (s :: rest') mc (some m) =
          p1FindMaxAux tot rest' (tot s) (some s) := by
        simp [p1FindMaxAux, hlt]
      rw [hstep, ih (tot s) s, List.map_cons]
      have hd := argmax_drop_first_lt (a := m) (b := s) (t := rest'.map (fun x => (x, tot x))) hlt
      rw [hd.1, hd.2]
    · by_cases hps : pyLt s m = true
      · have hstep : p1FindMaxAux tot (s :: rest') mc (some m) =
            p1FindMaxAux tot rest' (tot s) (some s) := by
          have h1 : ¬ tot s > mc := by omega
          simp [p1FindMaxAux, h1, ← heq, hps]
        rw [hstep, ih (tot s) s, List.map_cons, heq]
        have hle : strLe s m := by
          have h' : charsLt s.data m.data = true := hps
          have := charsLt_asymm h'
          simp [strLe, pyLe, pyLt, this]
        have hd := argmax_drop_tied_head (a := m) (b := s) (v := tot s)
          (t := rest'.map (fun x => (x, tot x))) hle
        rw [hd.1, hd.2]
      · have hstep : p1FindMaxAux tot (s :: rest') mc (some m) =
            p1FindMaxAux tot rest' mc (some m) := by
          have h1 : ¬ tot s > mc := by omega
          simp [p1FindMaxAux, h1, ← heq, hps]
        rw [hstep, ih mc m, List.map_cons, heq]
        have hle : strLe m s := by
          simp only [strLe, pyLe]
          simpa [pyLt] using hps
        have hd := argmax_drop_tied (a := m) (b := s) (v := tot s)
          (t := rest'.map (fun x => (x, tot x))) hle
        rw [hd.1, hd.2]
    · have hstep : p1FindMaxAux tot (s :: rest') mc (some m) =
          p1FindMaxAux tot rest' mc (some m) := by
        have h1 : ¬ tot s > mc := by omega
        have h2 : ¬ tot s = mc := by omega
        simp [p1FindMaxAux, h1, h2]
      rw [hstep, ih mc m, List.map_cons]
      have hd := argmax_drop_second_lt (a := m) (b := s)
        (t := rest'.map (fun x => (x, tot x))) hgt
      rw [hd.1, hd.2]

/-- C3: both extremal searches return the lexicographically smallest key among
those tied at the maximum score, independently of container iteration order:
the `output_OP1` selection equals the spec's `argmaxMinKey` and is invariant
under permutation of the aggregation dict, and Project 1's per-state loop
(nonempty SA3 list, non-negative totals) returns the maximum total together
with the lexicographically smallest tied SA3, likewise invariant under
permutation of the SA3 list. -/
theorem claim_C3 :
    (∀ m : List (String × Int), selectMaxKey m = argmaxMinKey m) ∧
      (∀ m m' : List (String × Int), m.Perm m' → selectMaxKey m = selectMaxKey m') ∧
      (∀ (sa3s : List String) (tot : String → Int), sa3s ≠ [] →
        (∀ s ∈ sa3s, 0 ≤ tot s) →
        p1FindMax sa3s tot =
          .ok ((maxValOf (sa3s.map (fun s => (s, tot s)))).getD 0,
            argmaxMinKey (sa3s.map (fun s => (s, tot s))))) ∧
      (∀ (sa3s sa3s' : List String) (tot : String → Int), sa3s ≠ [] →
        (∀ s ∈ sa3s, 0 ≤ tot s) → sa3s.Perm sa3s' →
        p1FindMax sa3s tot = p1FindMax sa3s' tot) := by
  have hp1 : ∀ (sa3s : List String) (tot : String → Int), sa3s ≠ [] →
      (∀ s ∈ sa3s, 0 ≤ tot s) →
      p1FindMax sa3s tot =
        .ok ((maxValOf (sa3s.map (fun s => (s, tot s)))).getD 0,
          argmaxMinKey (sa3s.map (fun s => (s, tot s)))) := by
    intro sa3s tot hne hnn
    cases sa3s with
    | nil => exact absurd rfl hne
    | cons s0 rest =>
      have h0 : tot s0 > -1 := by
        have := hnn s0 (by simp)
        omega
      have hstep : p1FindMax (s0 :: rest) tot = p1FindMaxAux tot rest (tot s0) (some s0) := by
        simp [p1FindMax, p1FindMaxAux, h0]
      rw [hstep, p1FindMaxAux_spec tot rest (tot s0) s0, List.map_cons]
  refine ⟨selectMaxKey_eq, fun m m' hp => selectMaxKey_perm hp, hp1, ?_⟩
  intro sa3s sa3s' tot hne hnn hperm
  have hne' : sa3s' ≠ [] := by
    intro hc
    rw [hc] at hperm
    exact hne hperm.eq_nil
  have hnn' : ∀ s ∈ sa3s', 0 ≤ tot s := fun s hs => hnn s (hperm.mem_iff.mpr hs)
  rw [hp1 sa3s tot hne hnn, hp1 sa3s' tot hne' hnn']
  have hmp : (sa3s.map (fun s => (s, tot s))).Perm (sa3s'.map (fun s => (s, tot s))) :=
    hperm.map _
  rw [maxValOf_perm hmp, argmaxMinKey_perm hmp]

/-- Witness for C3 at concrete tied inputs. -/
theorem claim_C3_witness :
    selectMaxKey [("b", 5), ("a", 5), ("c", 4)] =
        argmaxMinKey [("b", 5), ("a", 5), ("c", 4)] ∧
      selectMaxKey [("b", 5), ("a", 5)] = selectMaxKey [("a", 5), ("b", 5)] ∧
      p1FindMax ["b", "a", "c"] (fun s => if s = "c" then 4 else 5) =
        .ok ((maxValOf ((["b", "a", "c"]).map
            (fun s => (s, if s = "c" then (4 : Int) else 5)))).getD 0,
          argmaxMinKey ((["b", "a", "c"]).map
            (fun s => (s, if s = "c" then (4 : Int) else 5)))) := by
  refine ⟨claim_C3.1 _, claim_C3.2.1 _ _ (by decide), ?_⟩
  exact claim_C3.2.2.1 ["b", "a", "c"] (fun s => if s = "c" then 4 else 5)
    (by decide) (by decide)

/-! ## Claim C8: `clean_data` reconciliation is idempotent -/

/-- Properties of the cleaned population records: every survivor joins the
area map, the concatenated keys are duplicate-free, and none was seen. -/
theorem cleanAux_snd_props (m : List (String × AreaRow)) (pops : List PopRecord) :
    ∀ seen : List String,
      (∀ r ∈ (cleanAux m pops seen).2, (alookup m r.sa2Code).isSome) ∧
        ((cleanAux m pops seen).2.map (fun r => r.sa2Code ++ r.age)).Nodup ∧
        (∀ r ∈ (cleanAux m pops seen).2, r.sa2Code ++ r.age ∉ seen) := by
  induction pops with
  | nil => exact fun seen => ⟨by simp [cleanAux], by simp [cleanAux], by simp [cleanAux]⟩
  | cons r rest ih =>
    intro seen
    cases hl : alookup m r.sa2Code with
    | none =>
      have he : cleanAux m (r :: rest) seen = cleanAux m rest seen := by
        simp [cleanAux, hl]
      rw [he]
      exact ih seen
    | some ar =>
      by_cases hseen : r.sa2Code ++ r.age ∈ seen
      · have he : cleanAux m (r :: rest) seen = cleanAux m rest seen := by
          simp [cleanAux, hl, hseen]
        rw [he]
        exact ih seen
      · have he : (cleanAux m (r :: rest) seen).2 =
            r :: (cleanAux m rest (seen ++ [r.sa2Code ++ r.age])).2 := by
          simp [cleanAux, hl, hseen]
        obtain ⟨ih1, ih2, ih3⟩ := ih (seen ++ [r.sa2Code ++ r.age])
        rw [he]
        refine ⟨?_, ?_, ?_⟩
        · intro r' hr'
          rcases List.mem_cons.mp hr' with h' | h'
          · rw [h', hl]
            rfl
          · exact ih1 r' h'
        · rw [List.map_cons, List.nodup_cons]
          refine ⟨?_, ih2⟩
          intro hc
          obtain ⟨r', hr', hkey⟩ := List.mem_map.mp hc
          exact ih3 r' hr' (by simp [hkey])
        · intro r' hr'
          rcases List.mem_cons.mp hr' with h' | h'
          · rw [h']
            exact hseen
          · intro hc
            exact ih3 r' h' (by simp [hc])

/-- Records that already satisfy the join-and-dedup invariants pass through
`cleanAux` unchanged. -/
theorem cleanAux_snd_fixed (m : List (String × AreaRow)) (pops : List PopRecord) :
    ∀ seen : List String,
      (∀ r ∈ pops, (alookup m r.sa2Code).isSome) →
      (pops.map (fun r => r.sa2Code ++ r.age)).Nodup →
      (∀ r ∈ pops, r.sa2Code ++ r.age ∉ seen) →
      (cleanAux m pops seen).2 = pops := by
  induction pops with
  | nil => intro seen _ _ _; rfl
  | cons r rest ih =>
    intro seen h1 h2 h3
    cases hl : alookup m r.sa2Code with
    | none =>
      have := h1 r (by simp)
      rw [hl] at this
      simp at this
    | some ar =>
      have hseen : r.sa2Code ++ r.age ∉ seen := h3 r (by simp)
      have he : (cleanAux m (r :: rest) seen).2 =
          r :: (cleanAux m rest (seen ++ [r.sa2Code ++ r.age])).2 := by
        simp [cleanAux, hl, hseen]
      rw [he]
      congr 1
      refine ih (seen ++ [r.sa2Code ++ r.age]) (fun r' hr' => h1 r' (by simp [hr']))
        (by simpa [List.nodup_cons] using h2.of_cons) ?_
      intro r' hr'
      rw [List.map_cons, List.nodup_cons] at h2
      intro hc
      rcases List.mem_append.mp hc with h' | h'
      · exact h3 r' (by simp [hr']) h'
      · simp at h'
        exact h2.1 (h' ▸ List.mem_map_of_mem _ hr')

/-- C8: feeding `clean_data`'s cleaned population output back into
`clean_data` with the same area table returns it unchanged - the inner join
on `sa2 code` and the first-wins dedup on the concatenated
`code + age` key remove nothing on a second pass. -/
theorem claim_C8 (areas : List AreaRow) (pops : List PopRecord) :
    (clean_data areas (clean_data areas pops).2).2 = (clean_data areas pops).2 := by
  unfold clean_data
  obtain ⟨h1, h2, h3⟩ := cleanAux_snd_props (buildCodeToArea areas) pops []
  exact cleanAux_snd_fixed (buildCodeToArea areas) _ [] h1 h2 (fun r _ => by simp)

/-! ## Claims C1 and C7: the Pearson correlation step -/

/-- Definitional unfolding of one scan step. -/
theorem scanAux_cons (c1 c2 line : String) (rest : List String)
    (d1 d2 : Option (List Int)) :
    scanAux c1 c2 (line :: rest) d1 d2 =
      if pyStrip ((pySplit ',' line).headD "") = c1 ∨
          pyStrip ((pySplit ',' line).headD "") = c2 then
        match mapIntOr0 ((pySplit ',' line).drop 2) with
        | none => none
        | some v =>
          scanAux c1 c2 rest
            (if pyStrip ((pySplit ',' line).headD "") = c1 then some v else d1)
            (if pyStrip ((pySplit ',' line).headD "") = c2 then some v else d2)
      else scanAux c1 c2 rest d1 d2 := rfl

/-- Scanning for the same code twice fills both slots identically. -/
theorem scanAux_diag (c : String) (lines : List String) :
    ∀ d : Option (List Int), ∀ p, scanAux c c lines d d = some p → p.1 = p.2 := by
  induction lines with
  | nil =>
    intro d p hp
    simp [scanAux] at hp
    rw [← hp]
  | cons line rest ih =>
    intro d p hp
    rw [scanAux_cons] at hp
    by_cases hc : pyStrip ((pySplit ',' line).headD "") = c
    · rw [if_pos (Or.inl hc)] at hp
      cases hv : mapIntOr0 ((pySplit ',' line).drop 2) with
      | none =>
        rw [hv] at hp
        exact absurd hp (by simp)
      | some v =>
        rw [hv] at hp
        exact ih _ p hp
    · rw [if_neg (fun h => hc (h.elim id id))] at hp
      exact ih d p hp

/-- The row scan is symmetric in the two codes. -/
theorem scanAux_swap (c1 c2 : String) (lines : List String) :
    ∀ d1 d2 : Option (List Int),
      scanAux c2 c1 lines d2 d1 =
        (scanAux c1 c2 lines d1 d2).map (fun p => (p.2, p.1)) := by
  induction lines with
  | nil => intro d1 d2; simp [scanAux]
  | cons line rest ih =>
    intro d1 d2
    rw [scanAux_cons, scanAux_cons]
    by_cases hc : pyStrip ((pySplit ',' line).headD "") = c1 ∨
        pyStrip ((pySplit ',' line).headD "") = c2
    · rw [if_pos hc.symm, if_pos hc]
      cases hv : mapIntOr0 ((pySplit ',' line).drop 2) with
      | none => simp
      | some v => exact ih _ _
    · rw [if_neg (fun h => hc h.symm), if_neg hc]
      exact ih d1 d2

theorem pearsonR_some_some (v1 v2 : List Int) :
    pearsonR (some v1) (some v2) =
      if v1.isEmpty ∨ v2.isEmpty ∨ v1.length ≠ v2.length then 0
      else if (∀ x ∈ v1, (x : ℚ) = listMeanQ v1) ∨
          (∀ y ∈ v2, (y : ℚ) = listMeanQ v2) then 0
      else round4 (if pearsonDen v1 v2 = 0 then 0
        else (pearsonNum v1 v2 : ℝ) / pearsonDen v1 v2) := rfl

theorem pearsonR_none_left (d2 : Option (List Int)) : pearsonR none d2 = 0 := by
  cases d2 <;> rfl

theorem pearsonR_none_right (d1 : Option (List Int)) : pearsonR d1 none = 0 := by
  cases d1 <;> rfl

theorem list_sum_pos_of_nonneg {l : List ℚ} (h0 : ∀ x ∈ l, 0 ≤ x)
    (hx : ∃ x ∈ l, 0 < x) : 0 < l.sum := by
  induction l with
  | nil => simp at hx
  | cons a t ih =>
    rw [List.sum_cons]
    obtain ⟨x, hxm, hxp⟩ := hx
    rcases List.mem_cons.mp hxm with h | h
    · have ht : 0 ≤ t.sum := List.sum_nonneg (fun y hy => h0 y (List.mem_cons_of_mem _ hy))
      subst h
      linarith
    · have ha : 0 ≤ a := h0 a (by simp)
      have ht : 0 < t.sum := ih (fun y hy => h0 y (List.mem_cons_of_mem _ hy)) ⟨x, h, hxp⟩
      linarith

theorem sqSumAbout_nonneg (v : List Int) (m : ℚ) : 0 ≤ sqSumAbout v m := by
  rw [sqSumAbout_eq]
  refine List.sum_nonneg ?_
  intro y hy
  obtain ⟨x, _, hx⟩ := List.mem_map.mp hy
  rw [← hx]
  exact sq_nonneg _

theorem sqSumAbout_pos {v : List Int} {m : ℚ} (h : ∃ x ∈ v, (x : ℚ) ≠ m) :
    0 < sqSumAbout v m := by
  rw [sqSumAbout_eq]
  obtain ⟨x, hxm, hx⟩ := h
  refine list_sum_pos_of_nonneg ?_ ?_
  · intro y hy
    obtain ⟨z, _, hz⟩ := List.mem_map.mp hy
    rw [← hz]
    exact sq_nonneg _
  · refine ⟨((x : ℚ) - m) ^ 2, List.mem_map_of_mem _ hxm, ?_⟩
    have hne : (x : ℚ) - m ≠ 0 := sub_ne_zero.mpr hx
    exact lt_of_le_of_ne (sq_nonneg _) (Ne.symm (pow_ne_zero 2 hne))

theorem zip_self {α : Type} (v : List α) : v.zip v = v.map (fun x => (x, x)) := by
  induction v with
  | nil => rfl
  | cons a t ih => simp [List.zip_cons_cons, ih]

theorem pearsonNum_self (v : List Int) :
    pearsonNum v v = sqSumAbout v (listMeanQ v) := by
  rw [pearsonNum, zip_self, List.foldl_map]
  rw [show (fun (acc : ℚ) (x : Int) =>
      acc + ((x : ℚ) - listMeanQ v) * ((x : ℚ) - listMeanQ v)) =
      (fun (acc : ℚ) (x : Int) => acc + ((x : ℚ) - listMeanQ v) ^ 2) from by
    funext acc x
    rw [sq]]
  rfl

theorem sum_const_of_all_eq {a : Int} :
    ∀ v : List Int, (∀ x ∈ v, x = a) → v.sum = (v.length : Int) * a := by
  intro v
  induction v with
  | nil => simp
  | cons b t ih =>
    intro h
    rw [List.sum_cons, ih (fun x hx => h x (List.mem_cons_of_mem _ hx)), h b (by simp)]
    simp only [List.length_cons]
    push_cast
    ring

/-- On a constant integer list the exact float mean is that constant. -/
theorem listMeanQ_const {v : List Int} {a : Int} (hne : v ≠ [])
    (h : ∀ x ∈ v, x = a) : listMeanQ v = (a : ℚ) := by
  have hsum : listSumInt v = (v.length : Int) * a := by
    rw [listSumInt_eq]
    exact sum_const_of_all_eq v h
  have hlen : (0 : ℚ) < (v.length : ℚ) := by
    have : 0 < v.length := List.length_pos.mpr hne
    exact_mod_cast this
  rw [listMeanQ, hsum]
  push_cast
  rw [mul_comm, mul_div_assoc, div_self (ne_of_gt hlen), mul_one]

/-- On equal non-constant vectors the guarded Pearson quotient is exactly 1. -/
theorem pearsonR_self_one {v : List Int} (hne : v ≠ [])
    (hnc : ¬ ∀ x ∈ v, (x : ℚ) = listMeanQ v) :
    pearsonR (some v) (some v) = 1 := by
  rw [pearsonR_some_some]
  have hemp : ¬ v.isEmpty = true := by
    cases v with
    | nil => exact absurd rfl hne
    | cons a t => simp
  rw [if_neg (by
    intro hc
    rcases hc with h | h | h
    · exact hemp h
    · exact hemp h
    · exact h rfl)]
  rw [if_neg (fun h => h.elim hnc hnc)]
  push_neg at hnc
  obtain ⟨x, hxm, hx⟩ := hnc
  have hS : 0 < sqSumAbout v (listMeanQ v) := sqSumAbout_pos ⟨x, hxm, hx⟩
  have hcast : (0 : ℝ) < ((sqSumAbout v (listMeanQ v) : ℚ) : ℝ) := by exact_mod_cast hS
  have hden : pearsonDen v v = ((sqSumAbout v (listMeanQ v) : ℚ) : ℝ) := by
    rw [pearsonDen]
    push_cast
    exact Real.sqrt_mul_self (le_of_lt hcast)
  have hden0 : pearsonDen v v ≠ 0 := by
    rw [hden]
    exact ne_of_gt hcast
  rw [if_neg hden0, pearsonNum_self, hden, div_self (ne_of_gt hcast), round4_one]

theorem zip_foldl_swap (f g : Int → ℚ) :
    ∀ (v1 v2 : List Int) (a : ℚ),
      (v1.zip v2).foldl (fun acc p => acc + f p.1 * g p.2) a =
        (v2.zip v1).foldl (fun acc p => acc + g p.1 * f p.2) a := by
  intro v1
  induction v1 with
  | nil => intro v2 a; cases v2 <;> rfl
  | cons x s ih =>
    intro v2 a
    cases v2 with
    | nil => rfl
    | cons y t =>
      simp only [List.zip_cons_cons, List.foldl_cons]
      rw [mul_comm (g y) (f x)]
      exact ih t (a + f x * g y)

theorem pearsonNum_swap (v1 v2 : List Int) : pearsonNum v1 v2 = pearsonNum v2 v1 := by
  unfold pearsonNum
  exact zip_foldl_swap (fun x => (x : ℚ) - listMeanQ v1)
    (fun y => (y : ℚ) - listMeanQ v2) v1 v2 0

theorem pearsonDen_swap (v1 v2 : List Int) : pearsonDen v1 v2 = pearsonDen v2 v1 := by
  rw [pearsonDen, pearsonDen, mul_comm]

theorem pearsonR_swap (d1 d2 : Option (List Int)) : pearsonR d1 d2 = pearsonR d2 d1 := by
  cases d1 with
  | none => rw [pearsonR_none_left, pearsonR_none_right]
  | some v1 =>
    cases d2 with
    | none => rw [pearsonR_none_left, pearsonR_none_right]
    | some v2 =>
      rw [pearsonR_some_some, pearsonR_some_some]
      by_cases h1 : v1.isEmpty = true ∨ v2.isEmpty = true ∨ ¬ v1.length = v2.length
      · have h1' : v2.isEmpty = true ∨ v1.isEmpty = true ∨ ¬ v2.length = v1.length := by
          rcases h1 with h | h | h
          · exact Or.inr (Or.inl h)
          · exact Or.inl h
          · exact Or.inr (Or.inr (fun hc => h hc.symm))
        rw [if_pos h1, if_pos h1']
      · have h1' : ¬ (v2.isEmpty = true ∨ v1.isEmpty = true ∨ ¬ v2.length = v1.length) := by
          intro hc
          rcases hc with h | h | h
          · exact h1 (Or.inr (Or.inl h))
          · exact h1 (Or.inl h)
          · exact h1 (Or.inr (Or.inr (fun hc2 => h hc2.symm)))
        rw [if_neg h1, if_neg h1']
        by_cases h2 : (∀ x ∈ v1, (x : ℚ) = listMeanQ v1) ∨ (∀ y ∈ v2, (y : ℚ) = listMeanQ v2)
        · rw [if_pos h2, if_pos h2.symm]
        · have h2' : ¬ ((∀ x ∈ v2, (x : ℚ) = listMeanQ v2) ∨
              (∀ y ∈ v1, (y : ℚ) = listMeanQ v1)) := fun h => h2 h.symm
          rw [if_neg h2, if_neg h2', pearsonDen_swap, pearsonNum_swap]

theorem correlationStep_eq (lines : List String) (c1 c2 : String)
    (p : Option (List Int) × Option (List Int)) (h : scanDists lines c1 c2 = some p) :
    correlationStep lines c1 c2 = some (pearsonR p.1 p.2) := by
  unfold correlationStep
  rw [h]
  rfl

theorem correlationStep_swap (lines : List String) (c1 c2 : String) :
    correlationStep lines c1 c2 = correlationStep lines c2 c1 := by
  unfold correlationStep scanDists
  rw [scanAux_swap c1 c2 (lines.drop 1) none none]
  cases hS : scanAux c1 c2 (lines.drop 1) none none with
  | none => rfl
  | some q =>
    simp only [Option.map_some']
    exact congrArg some (pearsonR_swap q.1 q.2)

/-- Population CSV whose (valid 9-digit) code's row is constant: the zero
variance guard makes the correlation `0.0`, not `1.0`. -/
def c1Lines : List String := ["SA2 code,name,a0,a1", "123456789,x,0,0"]

/-- C1 counterexample: both SA2 arguments equal, a valid 9-digit code, row
present in the population file - yet the returned correlation is `0.0`
(the row is constant, so the zero-variance guard fires), refuting
"the returned Pearson correlation is exactly 1.0". -/
theorem claim_C1_counterexample :
    pyIsDigit "123456789" = true ∧ ("123456789" : String).data.length = 9 ∧
      scanDists c1Lines "123456789" "123456789" = some (some [0, 0], some [0, 0]) ∧
      correlationStep c1Lines "123456789" "123456789" = some 0 ∧ (0 : ℝ) ≠ 1 := by
  refine ⟨by decide, by decide, by decide, ?_, by norm_num⟩
  rw [correlationStep_eq c1Lines "123456789" "123456789"
    (some [0, 0], some [0, 0]) (by decide)]
  rw [pearsonR_some_some]
  have hmean : listMeanQ [0, 0] = 0 := by
    rw [listMeanQ, listSumInt_eq]
    norm_num
  have hall : ∀ x ∈ ([0, 0] : List Int), (x : ℚ) = listMeanQ [0, 0] := by
    intro x hx
    rw [hmean]
    rcases List.mem_cons.mp hx with h | h
    · rw [h]; norm_num
    · simp at h; rw [h]; norm_num
  rw [if_neg (by decide), if_pos (Or.inl hall)]

/-- C1 (amended): when the two SA2 codes coincide, the scan fills both
age-distribution slots identically; when that shared distribution is present,
nonempty and non-constant (nonzero variance), the returned correlation is
exactly `1.0` (and no division error is raised - the step returns `some`);
and the correlation step is symmetric in the two codes.  The claim's original
statement is amended only by requiring nonzero variance: a constant row
(e.g. all zeros) returns `0.0` by the zero-variance guard, see the
counterexample. -/
theorem claim_C1_amended :
    (∀ (lines : List String) (c : String) (p : Option (List Int) × Option (List Int)),
      scanDists lines c c = some p → p.1 = p.2) ∧
      (∀ (lines : List String) (c : String) (v : List Int),
        scanDists lines c c = some (some v, some v) → v ≠ [] →
        (∃ a ∈ v, ∃ b ∈ v, a ≠ b) → correlationStep lines c c = some 1) ∧
      (∀ (lines : List String) (c1 c2 : String),
        correlationStep lines c1 c2 = correlationStep lines c2 c1) := by
  refine ⟨fun lines c p hp => scanAux_diag c (lines.drop 1) none p hp, ?_,
    correlationStep_swap⟩
  intro lines c v hscan hne hd
  rw [correlationStep_eq lines c c (some v, some v) hscan]
  refine congrArg some (pearsonR_self_one hne ?_)
  intro hall
  obtain ⟨a, ha, b, hb, hab⟩ := hd
  have : (a : ℚ) = (b : ℚ) := (hall a ha).trans (hall b hb).symm
  exact hab (by exact_mod_cast this)

/-- Population CSV with a non-constant row for the code. -/
def c1WitnessLines : List String := ["SA2 code,name,a0,a1", "123456789,x,1,2"]

/-- Witness for C1 (amended) at a concrete non-constant row. -/
theorem claim_C1_amended_witness :
    scanDists c1WitnessLines "123456789" "123456789" = some (some [1, 2], some [1, 2]) ∧
      ([1, 2] : List Int) ≠ [] ∧
      (∃ a ∈ ([1, 2] : List Int), ∃ b ∈ ([1, 2] : List Int), a ≠ b) ∧
      correlationStep c1WitnessLines "123456789" "123456789" = some 1 := by
  refine ⟨by decide, by decide, by decide, ?_⟩
  exact claim_C1_amended.2.1 c1WitnessLines "123456789" [1, 2] (by decide) (by decide)
    (by decide)

/-- C7: the degenerate-input policy of the correlation step: absent or empty
distributions, length mismatch, or a constant (zero-variance) vector all
yield `0.0`; a successful scan always returns `some` correlation (no
exception); and on nonempty non-constant vectors the guarded denominator is
provably nonzero, so the division is never division-by-zero. -/
theorem claim_C7 :
    (∀ d1 d2 : Option (List Int),
      d1 = none ∨ d2 = none ∨ d1 = some [] ∨ d2 = some [] → pearsonR d1 d2 = 0) ∧
      (∀ v1 v2 : List Int, v1.length ≠ v2.length → pearsonR (some v1) (some v2) = 0) ∧
      (∀ v1 v2 : List Int,
        ((∀ x ∈ v1, (x : ℚ) = listMeanQ v1) ∨ (∀ y ∈ v2, (y : ℚ) = listMeanQ v2)) →
        pearsonR (some v1) (some v2) = 0) ∧
      (∀ (lines : List String) (c1 c2 : String) (p : Option (List Int) × Option (List Int)),
        scanDists lines c1 c2 = some p →
        correlationStep lines c1 c2 = some (pearsonR p.1 p.2)) ∧
      (∀ v1 v2 : List Int,
        ¬ (∀ x ∈ v1, (x : ℚ) = listMeanQ v1) → ¬ (∀ y ∈ v2, (y : ℚ) = listMeanQ v2) →
        pearsonDen v1 v2 ≠ 0) := by
  refine ⟨?_, ?_, ?_, correlationStep_eq, ?_⟩
  · intro d1 d2 h
    rcases h with h | h | h | h
    · rw [h, pearsonR_none_left]
    · rw [h, pearsonR_none_right]
    · rw [h]
      cases d2 with
      | none => rw [pearsonR_none_right]
      | some v2 =>
        rw [pearsonR_some_some]
        rw [if_pos (Or.inl (by simp))]
    · rw [h]
      cases d1 with
      | none => rw [pearsonR_none_left]
      | some v1 =>
        rw [pearsonR_some_some]
        rw [if_pos (Or.inr (Or.inl (by simp)))]
  · intro v1 v2 h
    rw [pearsonR_some_some, if_pos (Or.inr (Or.inr h))]
  · intro v1 v2 h
    rw [pearsonR_some_some]
    by_cases h1 : v1.isEmpty = true ∨ v2.isEmpty = true ∨ ¬ v1.length = v2.length
    · rw [if_pos h1]
    · rw [if_neg h1, if_pos h]
  · intro v1 v2 h1 h2
    push_neg at h1 h2
    obtain ⟨x, hxm, hx⟩ := h1
    obtain ⟨y, hym, hy⟩ := h2
    have hS1 : 0 < sqSumAbout v1 (listMeanQ v1) := sqSumAbout_pos ⟨x, hxm, hx⟩
    have hS2 : 0 < sqSumAbout v2 (listMeanQ v2) := sqSumAbout_pos ⟨y, hym, hy⟩
    rw [pearsonDen]
    have hpos : (0 : ℝ) < ((sqSumAbout v1 (listMeanQ v1) * sqSumAbout v2 (listMeanQ v2) : ℚ) : ℝ) := by
      have : 0 < sqSumAbout v1 (listMeanQ v1) * sqSumAbout v2 (listMeanQ v2) :=
        mul_pos hS1 hS2
      exact_mod_cast this
    exact ne_of_gt (Real.sqrt_pos.mpr hpos)

/-- Witness for C7 at concrete degenerate inputs. -/
theorem claim_C7_witness :
    pearsonR none none = 0 ∧ pearsonR (some [1]) (some [1, 2]) = 0 ∧
      pearsonR (some [5, 5]) (some [1, 2]) = 0 ∧
      scanDists c1Lines "000000000" "123456789" = some (none, some [0, 0]) ∧
      correlationStep c1Lines "000000000" "123456789" =
        some (pearsonR none (some [0, 0])) ∧
      pearsonDen [1, 2] [3, 7] ≠ 0 := by
  have hm55 : ∀ x ∈ ([5, 5] : List Int), (x : ℚ) = listMeanQ [5, 5] := by
    intro x hx
    rw [listMeanQ_const (a := 5) (by decide) (by decide)]
    rcases List.mem_cons.mp hx with h | h
    · rw [h]
    · simp at h; rw [h]
  have hnc12 : ¬ ∀ x ∈ ([1, 2] : List Int), (x : ℚ) = listMeanQ [1, 2] := by
    intro hall
    have h1 := hall 1 (by simp)
    have h2 := hall 2 (by simp)
    rw [← h1] at h2
    norm_num at h2
  have hnc37 : ¬ ∀ x ∈ ([3, 7] : List Int), (x : ℚ) = listMeanQ [3, 7] := by
    intro hall
    have h1 := hall 3 (by simp)
    have h2 := hall 7 (by simp)
    rw [← h1] at h2
    norm_num at h2
  refine ⟨claim_C7.1 none none (Or.inl rfl),
    claim_C7.2.1 [1] [1, 2] (by decide),
    claim_C7.2.2.1 [5, 5] [1, 2] (Or.inl hm55),
    by decide,
    claim_C7.2.2.2.1 c1Lines "000000000" "123456789" (none, some [0, 0]) (by decide),
    claim_C7.2.2.2.2 [1, 2] [3, 7] hnc12 hnc37⟩

/-! ## Claims C2 and C9: `output_OP3` -/

/-- All key lists in a built `sa3_to_sa2` structure are duplicate-free. -/
def sa3MapInv (m : List (String × Sa3Group)) : Prop :=
  (alKeys m).Nodup ∧ ∀ p ∈ m, (alKeys p.2).Nodup ∧ ∀ q ∈ p.2, (alKeys q.2).Nodup

theorem op3Accum_inv (lookup : List (String × AreaInfo)) (m : List (String × Sa3Group))
    (r : PopRecord) (h : sa3MapInv m) : sa3MapInv (op3Accum lookup m r) := by
  unfold op3Accum
  dsimp only
  cases hl : alookup lookup (pyLower r.sa2Name) with
  | none => exact h
  | some info =>
    obtain ⟨h1, h2⟩ := h
    constructor
    · exact alKeys_nodup_alSet _ _ h1
    · intro p hp
      rcases mem_alSet hp with hpe | hpm
      · subst hpe
        have hgnd : (alKeys ((alookup m info.sa3Name).getD [])).Nodup := by
          cases hg : alookup m info.sa3Name with
          | none => simp [alKeys]
          | some g0 => exact (h2 _ (alookup_mem hg)).1
        have hand : (alKeys ((alookup ((alookup m info.sa3Name).getD [])
            (pyLower r.sa2Name)).getD [])).Nodup := by
          cases ha : alookup ((alookup m info.sa3Name).getD []) (pyLower r.sa2Name) with
          | none => simp [alKeys]
          | some ages0 =>
            cases hg : alookup m info.sa3Name with
            | none => simp [hg, alookup] at ha
            | some g0 =>
              rw [hg] at ha
              exact (h2 _ (alookup_mem hg)).2 _ (alookup_mem ha)
        refine ⟨alKeys_nodup_alSet _ _ hgnd, ?_⟩
        intro q hq
        rcases mem_alSet hq with hqe | hqm
        · subst hqe
          exact alKeys_nodup_alSet _ _ hand
        · cases hg : alookup m info.sa3Name with
          | none => rw [hg] at hqm; simp at hqm
          | some g0 =>
            rw [hg] at hqm
            exact (h2 _ (alookup_mem hg)).2 _ hqm
      · exact h2 p hpm

theorem buildSa3Map_inv (pops : List PopRecord) (lookup : List (String × AreaInfo)) :
    sa3MapInv (buildSa3Map pops lookup) := by
  unfold buildSa3Map
  have : ∀ m, sa3MapInv m → sa3MapInv (pops.foldl (op3Accum lookup) m) := by
    induction pops with
    | nil => exact fun m h => h
    | cons r rest ih =>
      intro m h
      exact ih _ (op3Accum_inv lookup m r h)
  exact this [] ⟨by simp [alKeys], by simp⟩

theorem alookup_filterMap_none {β γ : Type} (f : β → Option γ)
    (m : List (String × β)) (s : String) (h : s ∉ alKeys m) :
    alookup (m.filterMap (fun p => (f p.2).map (fun t => (p.1, t)))) s = none := by
  induction m with
  | nil => rfl
  | cons p t ih =>
    have hs : p.1 ≠ s := by
      intro hc
      exact h (by simp [alKeys, hc])
    have ht : s ∉ alKeys t := fun hc => h (by simp [alKeys] at hc ⊢; exact Or.inr hc)
    rw [List.filterMap_cons]
    cases hf : (f p.2).map (fun t => (p.1, t)) with
    | none => exact ih ht
    | some q =>
      obtain ⟨v, _, hq⟩ := Option.map_eq_some'.mp hf
      rw [← hq]
      simp only [alookup, if_neg hs]
      exact ih ht

theorem alookup_filterMap {β γ : Type} (f : β → Option γ)
    (m : List (String × β)) (s : String) (hnd : (alKeys m).Nodup) :
    alookup (m.filterMap (fun p => (f p.2).map (fun t => (p.1, t)))) s =
      (alookup m s).bind f := by
  induction m with
  | nil => rfl
  | cons p t ih =>
    simp only [alKeys, List.map_cons, List.nodup_cons] at hnd
    rw [List.filterMap_cons]
    by_cases hs : p.1 = s
    · subst hs
      cases hf : f p.2 with
      | none =>
        rw [show alookup ((p.1, p.2) :: t) p.1 = some p.2 from by simp [alookup]]
        rw [Option.some_bind, hf, Option.map_none']
        exact alookup_filterMap_none f t p.1 hnd.1
      | some v =>
        rw [show alookup ((p.1, p.2) :: t) p.1 = some p.2 from by simp [alookup]]
        rw [Option.some_bind, hf, Option.map_some']
        simp [alookup]
    · rw [show alookup ((p.1, p.2) :: t) s = alookup t s from by simp [alookup, hs]]
      cases hf : (f p.2).map (fun t => (p.1, t)) with
      | none => exact ih hnd.2
      | some q =>
        obtain ⟨v, _, hq⟩ := Option.map_eq_some'.mp hf
        rw [← hq]
        simp only [alookup, if_neg hs]
        exact ih hnd.2

theorem alKeys_filterMap_sublist {β γ : Type} (f : β → Option γ)
    (m : List (String × β)) :
    (alKeys (m.filterMap (fun p => (f p.2).map (fun t => (p.1, t))))).Sublist
      (alKeys m) := by
  induction m with
  | nil => simp [alKeys]
  | cons p t ih =>
    rw [List.filterMap_cons]
    cases hf : (f p.2).map (fun t => (p.1, t)) with
    | none =>
      exact ih.trans (by simp [alKeys])
    | some q =>
      obtain ⟨v, _, hq⟩ := Option.map_eq_some'.mp hf
      rw [← hq]
      simp only [alKeys, List.map_cons]
      exact List.Sublist.cons₂ _ ih

/-- Lookup in the `output_OP3` result reduces to processing the looked-up
SA3 grouping of `sa3_to_sa2`. -/
theorem op3_lookup (pops : List PopRecord) (lookup : List (String × AreaInfo))
    (s : String) :
    alookup (output_OP3 pops lookup) s =
      (alookup (buildSa3Map pops lookup) s).bind processSa3 := by
  have hinv := buildSa3Map_inv pops lookup
  unfold output_OP3
  have hnd : (alKeys ((buildSa3Map pops lookup).filterMap
      (fun p => (processSa3 p.2).map (fun t => (p.1, t))))).Nodup :=
    (alKeys_filterMap_sublist processSa3 (buildSa3Map pops lookup)).nodup hinv.1
  have hperm : (sortByKey ((buildSa3Map pops lookup).filterMap
      (fun p => (processSa3 p.2).map (fun t => (p.1, t))))).Perm
      ((buildSa3Map pops lookup).filterMap
        (fun p => (processSa3 p.2).map (fun t => (p.1, t)))) :=
    List.perm_insertionSort _ _
  have hnd2 : (alKeys (sortByKey ((buildSa3Map pops lookup).filterMap
      (fun p => (processSa3 p.2).map (fun t => (p.1, t)))))).Nodup :=
    ((hperm.map Prod.fst).nodup_iff).mpr hnd
  rw [alookup_perm hperm hnd2 s]
  exact alookup_filterMap processSa3 (buildSa3Map pops lookup) s hinv.1

theorem pairsOf_mem {α : Type} {a b : α} :
    ∀ {l : List α}, (a, b) ∈ pairsOf l → a ∈ l ∧ b ∈ l := by
  intro l
  induction l with
  | nil => intro h; simp [pairsOf] at h
  | cons x t ih =>
    intro h
    rw [pairsOf] at h
    rcases List.mem_append.mp h with h1 | h1
    · obtain ⟨y, hy, he⟩ := List.mem_map.mp h1
      have hax : x = a := congrArg Prod.fst he
      have hby : y = b := congrArg Prod.snd he
      exact ⟨by simp [← hax], by simp [hby ▸ hy]⟩
    · obtain ⟨h2, h3⟩ := ih h1
      exact ⟨List.mem_cons_of_mem _ h2, List.mem_cons_of_mem _ h3⟩

theorem mem_mkPairsPre {g : Sa3Group} {x : String × String × List Int × List Int}
    (h : x ∈ mkPairsPre g) :
    (x.1, x.2.1) ∈ pairsOf (pySortStr (alKeys g)) ∧
      x.2.2.1 = pairVector ((alookup g x.1).getD [])
        (unionAges ((alookup g x.1).getD []) ((alookup g x.2.1).getD [])) ∧
      x.2.2.2 = pairVector ((alookup g x.2.1).getD [])
        (unionAges ((alookup g x.1).getD []) ((alookup g x.2.1).getD [])) ∧
      listSumInt x.2.2.1 ≠ 0 ∧ listSumInt x.2.2.2 ≠ 0 := by
  rw [mkPairsPre] at h
  obtain ⟨q, hq, hfq⟩ := List.mem_filterMap.mp h
  dsimp only at hfq
  by_cases hc : listSumInt (pairVector ((alookup g q.1).getD [])
      (unionAges ((alookup g q.1).getD []) ((alookup g q.2).getD []))) = 0 ∨
      listSumInt (pairVector ((alookup g q.2).getD [])
        (unionAges ((alookup g q.1).getD []) ((alookup g q.2).getD []))) = 0
  · rw [if_pos hc] at hfq
    exact absurd hfq (by simp)
  · rw [if_neg hc] at hfq
    have hx := Option.some.inj hfq
    push_neg at hc
    rw [← hx]
    refine ⟨?_, rfl, rfl, hc.1, hc.2⟩
    have : q = (q.1, q.2) := rfl
    rw [← this]
    exact hq

theorem maxSim_foldl_some (pairs : List (String × String × ℝ)) :
    ∀ w : ℝ, ∃ M, pairs.foldl
      (fun m p =>
        match m with
        | none => some p.2.2
        | some M => if p.2.2 > M then some p.2.2 else some M) (some w) = some M ∧
      (M = w ∨ M ∈ pairs.map (fun p => p.2.2)) := by
  induction pairs with
  | nil => exact fun w => ⟨w, rfl, Or.inl rfl⟩
  | cons p t ih =>
    intro w
    by_cases hc : p.2.2 > w
    · obtain ⟨M, hM, hmem⟩ := ih p.2.2
      refine ⟨M, by simpa [hc] using hM, ?_⟩
      rcases hmem with h | h
      · exact Or.inr (by simp [h])
      · exact Or.inr (by simp [h])
    · obtain ⟨M, hM, hmem⟩ := ih w
      refine ⟨M, by simpa [hc] using hM, ?_⟩
      rcases hmem with h | h
      · exact Or.inl h
      · exact Or.inr (by simp [h])

theorem maxSim_attained {pairs : List (String × String × ℝ)} {M : ℝ}
    (h : maxSim pairs = some M) : ∃ q ∈ pairs, q.2.2 = M := by
  cases pairs with
  | nil => exact absurd h (by simp [maxSim])
  | cons p t =>
    rw [maxSim, List.foldl_cons] at h
    obtain ⟨M', hM', hmem⟩ := maxSim_foldl_some t p.2.2
    rw [show (match (none : Option ℝ) with
        | none => some p.2.2
        | some M => if p.2.2 > M then some p.2.2 else some M) = some p.2.2 from rfl] at h
    rw [hM'] at h
    have : M' = M := Option.some.inj h
    subst this
    rcases hmem with h' | h'
    · exact ⟨p, by simp, h'.symm⟩
    · obtain ⟨q, hq, hq2⟩ := List.mem_map.mp h'
      exact ⟨q, List.mem_cons_of_mem _ hq, hq2⟩

theorem maxSim_isSome {pairs : List (String × String × ℝ)} (h : pairs ≠ []) :
    ∃ M, maxSim pairs = some M := by
  cases pairs with
  | nil => exact absurd rfl h
  | cons p t =>
    rw [maxSim, List.foldl_cons]
    obtain ⟨M, hM, _⟩ := maxSim_foldl_some t p.2.2
    exact ⟨M, hM⟩

theorem foldl_keyMin_mem (g : Sa3Group) (t : List (String × String × ℝ)) :
    ∀ q, (t.foldl (fun b p => if keyLt (pairKey g p) (pairKey g b) then p else b) q) ∈
      q :: t := by
  induction t with
  | nil => intro q; simp
  | cons p t' ih =>
    intro q
    rw [List.foldl_cons]
    by_cases hc : keyLt (pairKey g p) (pairKey g q) = true
    · rw [if_pos hc]
      have hmem := ih p
      rcases List.mem_cons.mp hmem with h | h
      · rw [h]
        simp
      · simp [List.mem_cons_of_mem, h]
    · rw [if_neg hc]
      have hmem := ih q
      rcases List.mem_cons.mp hmem with h | h
      · rw [h]
        simp
      · simp [List.mem_cons_of_mem, h]

theorem selectTop_unfold (g : Sa3Group) (pairs : List (String × String × ℝ)) :
    selectTop g pairs =
      match maxSim pairs with
      | none => none
      | some M =>
        match pairs.filter (fun p => decide (p.2.2 = M)) with
        | [] => none
        | q :: qs =>
          let best := qs.foldl
            (fun b p => if keyLt (pairKey g p) (pairKey g b) then p else b) q;
          some (if pyLt best.1 best.2.1 then best else (best.2.1, best.1, best.2.2)) := rfl

theorem selectTop_mem {g : Sa3Group} {pairs : List (String × String × ℝ)}
    {r : String × String × ℝ} (h : selectTop g pairs = some r) :
    r ∈ pairs ∨ (r.2.1, r.1, r.2.2) ∈ pairs := by
  rw [selectTop_unfold] at h
  cases hM : maxSim pairs with
  | none => rw [hM] at h; exact absurd h (by simp)
  | some M =>
    rw [hM] at h
    dsimp only at h
    cases hf : pairs.filter (fun p => decide (p.2.2 = M)) with
    | nil => rw [hf] at h; exact absurd h (by simp)
    | cons q qs =>
      rw [hf] at h
      dsimp only at h
      set best := qs.foldl (fun b p => if keyLt (pairKey g p) (pairKey g b) then p else b) q
        with hbest
      have hbmem : best ∈ q :: qs := foldl_keyMin_mem g qs q
      have hbpairs : best ∈ pairs := by
        have : best ∈ pairs.filter (fun p => decide (p.2.2 = M)) := hf ▸ hbmem
        exact List.mem_of_mem_filter this
      have hr := Option.some.inj h
      by_cases hc : pyLt best.1 best.2.1 = true
      · rw [if_pos hc] at hr
        exact Or.inl (hr ▸ hbpairs)
      · rw [if_neg hc] at hr
        right
        rw [← hr]
        exact hbpairs

theorem selectTop_exists {g : Sa3Group} {pairs : List (String × String × ℝ)}
    (h : pairs ≠ []) : ∃ r, selectTop g pairs = some r := by
  obtain ⟨M, hM⟩ := maxSim_isSome h
  obtain ⟨q0, hq0, hq0M⟩ := maxSim_attained hM
  rw [selectTop_unfold, hM]
  dsimp only
  cases hf : pairs.filter (fun p => decide (p.2.2 = M)) with
  | nil =>
    exfalso
    have : q0 ∈ pairs.filter (fun p => decide (p.2.2 = M)) :=
      List.mem_filter.mpr ⟨hq0, decide_eq_true hq0M⟩
    rw [hf] at this
    simp at this
  | cons q qs =>
    dsimp only
    exact ⟨_, rfl⟩

theorem selectTop_singleton (g : Sa3Group) (p : String × String × ℝ) :
    selectTop g [p] =
      some (if pyLt p.1 p.2.1 then p else (p.2.1, p.1, p.2.2)) := by
  have hM : maxSim [p] = some p.2.2 := rfl
  rw [selectTop_unfold, hM]
  dsimp only
  have hf : ([p]).filter (fun q => decide (q.2.2 = p.2.2)) = [p] := by
    rw [List.filter_cons, if_pos (decide_eq_true rfl)]
    rfl
  rw [hf]
  rfl

theorem sumVals_cons (k : String) (v : Int) (rest : AgeMap) :
    sumVals ((k, v) :: rest) = v + sumVals rest := by
  rw [sumVals, sumVals, listSumInt_eq, listSumInt_eq]
  simp

/-- Summing the union-age vector of an age dict recovers the sum of its
values (`sum(pop_a) = sum(sa3_to_sa2[sa3][sa2a].values())`). -/
theorem pairVector_sum (m : AgeMap) :
    ∀ ages : List String, ages.Nodup → (∀ k ∈ alKeys m, k ∈ ages) →
      (alKeys m).Nodup → listSumInt (pairVector m ages) = sumVals m := by
  induction m with
  | nil =>
    intro ages _ _ _
    rw [listSumInt_eq]
    have : pairVector [] ages = ages.map (fun _ => 0) := by
      simp [pairVector, alookup]
    rw [this]
    simp [sumVals, listSumInt]
  | cons p rest ih =>
    obtain ⟨k, v⟩ := p
    intro ages hnd hsub hknd
    have hkmem : k ∈ ages := hsub k (by simp [alKeys])
    have hperm : ages.Perm (k :: ages.erase k) := List.perm_cons_erase hkmem
    have hknotrest : k ∉ alKeys rest := by
      simp only [alKeys, List.map_cons, List.nodup_cons] at hknd
      exact hknd.1
    rw [listSumInt_eq, pairVector]
    rw [(hperm.map (fun a => (alookup ((k, v) :: rest) a).getD 0)).sum_eq]
    rw [List.map_cons, List.sum_cons]
    have hk : (alookup ((k, v) :: rest) k).getD 0 = v := by simp [alookup]
    have hrest : (ages.erase k).map (fun a => (alookup ((k, v) :: rest) a).getD 0) =
        (ages.erase k).map (fun a => (alookup rest a).getD 0) := by
      refine List.map_congr_left ?_
      intro a ha
      have hane : a ≠ k := ((List.Nodup.mem_erase_iff hnd).mp ha).1
      simp [alookup, Ne.symm hane]
    rw [hk, hrest]
    have hih := ih (ages.erase k) (hnd.erase k)
      (fun k' hk' => (List.Nodup.mem_erase_iff hnd).mpr
        ⟨fun hc => hknotrest (hc ▸ hk'), hsub k' (by
          show k' ∈ alKeys ((k, v) :: rest)
          simp only [alKeys, List.map_cons]
          exact List.mem_cons_of_mem _ hk')⟩)
      (by
        simp only [alKeys, List.map_cons, List.nodup_cons] at hknd
        exact hknd.2)
    rw [listSumInt_eq, pairVector] at hih
    rw [hih, sumVals_cons]

theorem unionAges_props (ma mb : AgeMap) (ha : (alKeys ma).Nodup)
    (hb : (alKeys mb).Nodup) :
    (unionAges ma mb).Nodup ∧ (∀ k ∈ alKeys ma, k ∈ unionAges ma mb) ∧
      (∀ k ∈ alKeys mb, k ∈ unionAges ma mb) := by
  have hperm : (unionAges ma mb).Perm
      (alKeys ma ++ (alKeys mb).filter (fun k => (alookup ma k).isNone)) :=
    pySortStr_perm _
  have hraw : (alKeys ma ++ (alKeys mb).filter (fun k => (alookup ma k).isNone)).Nodup := by
    rw [List.nodup_append]
    refine ⟨ha, hb.filter _, ?_⟩
    intro x hx hxf
    have := List.of_mem_filter hxf
    have hn : alookup ma x = none := by
      cases h : alookup ma x with
      | none => rfl
      | some v => rw [h] at this; simp at this
    exact (alookup_eq_none ma x).mp hn hx
  refine ⟨hperm.nodup_iff.mpr hraw, ?_, ?_⟩
  · intro k hk
    exact hperm.mem_iff.mpr (List.mem_append.mpr (Or.inl hk))
  · intro k hk
    by_cases hma : k ∈ alKeys ma
    · exact hperm.mem_iff.mpr (List.mem_append.mpr (Or.inl hma))
    · have hn : alookup ma k = none := (alookup_eq_none ma k).mpr hma
      refine hperm.mem_iff.mpr (List.mem_append.mpr (Or.inr ?_))
      refine List.mem_filter.mpr ⟨hk, ?_⟩
      rw [hn]
      rfl

theorem mkPairsPre_names {g : Sa3Group} {x : String × String × List Int × List Int}
    (h : x ∈ mkPairsPre g) : x.1 ∈ alKeys g ∧ x.2.1 ∈ alKeys g := by
  have hp := (mem_mkPairsPre h).1
  obtain ⟨h1, h2⟩ := pairsOf_mem hp
  exact ⟨(pySortStr_perm _).mem_iff.mp h1, (pySortStr_perm _).mem_iff.mp h2⟩

theorem processSa3_eq (g : Sa3Group) :
    processSa3 g = if (alKeys g).length < 15 then none
      else selectTop g (mkPairs g) := rfl

/-- C2 (amended): an SA3 grouping with fewer than 15 member SA2s - or one
absent from `sa3_to_sa2` - is entirely absent from the `output_OP3` result
(no key at all); a grouping with 15 or more members in which at least one
pair survives the zero-sum guard is present, and its reported pair consists
of member SA2s.  (The claim's unconditional "15 or more members is present"
is amended by the surviving-pair condition: when every pair is skipped by
the zero-total-population guard the source's `if not pairs: continue` drops
the grouping, see the counterexample.) -/
theorem claim_C2_amended :
    (∀ (pops : List PopRecord) (lookup : List (String × AreaInfo)) (s : String)
      (g : Sa3Group), alookup (buildSa3Map pops lookup) s = some g →
      (alKeys g).length < 15 → alookup (output_OP3 pops lookup) s = none) ∧
      (∀ (pops : List PopRecord) (lookup : List (String × AreaInfo)) (s : String),
        alookup (buildSa3Map pops lookup) s = none →
        alookup (output_OP3 pops lookup) s = none) ∧
      (∀ (pops : List PopRecord) (lookup : List (String × AreaInfo)) (s : String)
        (g : Sa3Group), alookup (buildSa3Map pops lookup) s = some g →
        15 ≤ (alKeys g).length → mkPairsPre g ≠ [] →
        ∃ a b sc, alookup (output_OP3 pops lookup) s = some (a, b, sc) ∧
          a ∈ alKeys g ∧ b ∈ alKeys g) := by
  refine ⟨?_, ?_, ?_⟩
  · intro pops lookup s g hg h15
    rw [op3_lookup, hg, Option.some_bind, processSa3_eq, if_pos h15]
  · intro pops lookup s hg
    rw [op3_lookup, hg, Option.none_bind]
  · intro pops lookup s g hg h15 hpre
    rw [op3_lookup, hg, Option.some_bind, processSa3_eq,
      if_neg (by omega)]
    have hmp : mkPairs g ≠ [] := by
      intro hc
      exact hpre (List.map_eq_nil_iff.mp hc)
    obtain ⟨r, hr⟩ := selectTop_exists hmp
    refine ⟨r.1, r.2.1, r.2.2, hr, ?_⟩
    rcases selectTop_mem hr with hmem | hmem
    · obtain ⟨x, hxpre, hfx⟩ := List.mem_map.mp hmem
      have h1 : x.1 = r.1 := congrArg Prod.fst hfx
      have h2 : x.2.1 = r.2.1 := congrArg (fun t => t.2.1) hfx
      obtain ⟨ha, hb⟩ := mkPairsPre_names hxpre
      exact ⟨h1 ▸ ha, h2 ▸ hb⟩
    · obtain ⟨x, hxpre, hfx⟩ := List.mem_map.mp hmem
      have h1 : x.1 = r.2.1 := congrArg Prod.fst hfx
      have h2 : x.2.1 = r.1 := congrArg (fun t => t.2.1) hfx
      obtain ⟨ha, hb⟩ := mkPairsPre_names hxpre
      exact ⟨h2 ▸ hb, h1 ▸ ha⟩

/-- C9: an `output_OP3` entry's two SA2s always have nonzero total
population: pairs with a zero-total member are skipped before
`cosine_similarity` is ever applied, so they are never assigned the `0.0`
fallback and can never be the reported winning pair. -/
theorem claim_C9 (pops : List PopRecord) (lookup : List (String × AreaInfo))
    (s : String) (g : Sa3Group) (a b : String) (sc : ℝ)
    (hg : alookup (buildSa3Map pops lookup) s = some g)
    (hout : alookup (output_OP3 pops lookup) s = some (a, b, sc)) :
    sumVals ((alookup g a).getD []) ≠ 0 ∧ sumVals ((alookup g b).getD []) ≠ 0 ∧
      ((a, b) ∈ (mkPairsPre g).map (fun q => (q.1, q.2.1)) ∨
        (b, a) ∈ (mkPairsPre g).map (fun q => (q.1, q.2.1))) := by
  rw [op3_lookup, hg, Option.some_bind, processSa3_eq] at hout
  by_cases h15 : (alKeys g).length < 15
  · rw [if_pos h15] at hout
    exact absurd hout (by simp)
  · rw [if_neg h15] at hout
    have hginv : ((alKeys g).Nodup ∧ ∀ q ∈ g, (alKeys q.2).Nodup) := by
      have hinv := buildSa3Map_inv pops lookup
      have hmem := alookup_mem hg
      exact ⟨(hinv.2 _ hmem).1, (hinv.2 _ hmem).2⟩
    have hmapnd : ∀ y : String, (alKeys ((alookup g y).getD [])).Nodup := by
      intro y
      cases hy : alookup g y with
      | none => simp [alKeys]
      | some m0 => exact hginv.2 _ (alookup_mem hy)
    have main : ∀ x ∈ mkPairsPre g,
        sumVals ((alookup g x.1).getD []) ≠ 0 ∧
          sumVals ((alookup g x.2.1).getD []) ≠ 0 := by
      intro x hx
      obtain ⟨_, hva, hvb, hsa, hsb⟩ := mem_mkPairsPre hx
      obtain ⟨hund, hsubA, hsubB⟩ := unionAges_props ((alookup g x.1).getD [])
        ((alookup g x.2.1).getD []) (hmapnd x.1) (hmapnd x.2.1)
      constructor
      · intro hc
        apply hsa
        rw [hva, pairVector_sum _ _ hund hsubA (hmapnd x.1), hc]
      · intro hc
        apply hsb
        rw [hvb, pairVector_sum _ _ hund hsubB (hmapnd x.2.1), hc]
    rcases selectTop_mem hout with hmem | hmem
    · obtain ⟨x, hxpre, hfx⟩ := List.mem_map.mp hmem
      have h1 : x.1 = a := congrArg Prod.fst hfx
      have h2 : x.2.1 = b := congrArg (fun t => t.2.1) hfx
      obtain ⟨hna, hnb⟩ := main x hxpre
      refine ⟨h1 ▸ hna, h2 ▸ hnb, Or.inl ?_⟩
      refine List.mem_map.mpr ⟨x, hxpre, ?_⟩
      rw [h1, h2]
    · obtain ⟨x, hxpre, hfx⟩ := List.mem_map.mp hmem
      have h1 : x.1 = b := congrArg Prod.fst hfx
      have h2 : x.2.1 = a := congrArg (fun t => t.2.1) hfx
      obtain ⟨hna, hnb⟩ := main x hxpre
      refine ⟨h2 ▸ hnb, h1 ▸ hna, Or.inr ?_⟩
      refine List.mem_map.mpr ⟨x, hxpre, ?_⟩
      rw [h1, h2]

/-- Area lookup with 15 SA2 names `a` … `o`, all in SA3 name `s3`. -/
def op3DemoLookup : List (String × AreaInfo) :=
  [("a", ⟨"st", "s3", "stc", "s3c", "ka"⟩), ("b", ⟨"st", "s3", "stc", "s3c", "kb"⟩),
   ("c", ⟨"st", "s3", "stc", "s3c", "kc"⟩), ("d", ⟨"st", "s3", "stc", "s3c", "kd"⟩),
   ("e", ⟨"st", "s3", "stc", "s3c", "ke"⟩), ("f", ⟨"st", "s3", "stc", "s3c", "kf"⟩),
   ("g", ⟨"st", "s3", "stc", "s3c", "kg"⟩), ("h", ⟨"st", "s3", "stc", "s3c", "kh"⟩),
   ("i", ⟨"st", "s3", "stc", "s3c", "ki"⟩), ("j", ⟨"st", "s3", "stc", "s3c", "kj"⟩),
   ("k", ⟨"st", "s3", "stc", "s3c", "kk"⟩), ("l", ⟨"st", "s3", "stc", "s3c", "kl"⟩),
   ("m", ⟨"st", "s3", "stc", "s3c", "km"⟩), ("n", ⟨"st", "s3", "stc", "s3c", "kn"⟩),
   ("o", ⟨"st", "s3", "stc", "s3c", "ko"⟩)]

/-- 15 member SA2s, every age count zero: every pair is skipped by the
zero-sum guard. -/
def c2Pops : List PopRecord :=
  [⟨"a", "ka", "0-4", 0⟩, ⟨"b", "kb", "0-4", 0⟩, ⟨"c", "kc", "0-4", 0⟩,
   ⟨"d", "kd", "0-4", 0⟩, ⟨"e", "ke", "0-4", 0⟩, ⟨"f", "kf", "0-4", 0⟩,
   ⟨"g", "kg", "0-4", 0⟩, ⟨"h", "kh", "0-4", 0⟩, ⟨"i", "ki", "0-4", 0⟩,
   ⟨"j", "kj", "0-4", 0⟩, ⟨"k", "kk", "0-4", 0⟩, ⟨"l", "kl", "0-4", 0⟩,
   ⟨"m", "km", "0-4", 0⟩, ⟨"n", "kn", "0-4", 0⟩, ⟨"o", "ko", "0-4", 0⟩]

/-- The grouping `sa3_to_sa2["s3"]` built from `c2Pops`. -/
def c2Group : Sa3Group :=
  [("a", [("0-4", 0)]), ("b", [("0-4", 0)]), ("c", [("0-4", 0)]),
   ("d", [("0-4", 0)]), ("e", [("0-4", 0)]), ("f", [("0-4", 0)]),
   ("g", [("0-4", 0)]), ("h", [("0-4", 0)]), ("i", [("0-4", 0)]),
   ("j", [("0-4", 0)]), ("k", [("0-4", 0)]), ("l", [("0-4", 0)]),
   ("m", [("0-4", 0)]), ("n", [("0-4", 0)]), ("o", [("0-4", 0)])]

/-- C2 counterexample: an SA3 grouping with 15 member SA2s that is
nevertheless entirely absent from the `output_OP3` result: all populations
are zero, so every pair is skipped by the zero-sum guard and the source's
`if not pairs: continue` drops the grouping, refuting "an SA3 grouping with
15 or more member SA2s is present in the output". -/
theorem claim_C2_counterexample :
    alookup (buildSa3Map c2Pops op3DemoLookup) "s3" = some c2Group ∧
      (alKeys c2Group).length = 15 ∧
      alookup (output_OP3 c2Pops op3DemoLookup) "s3" = none := by
  refine ⟨by decide, by decide, ?_⟩
  rw [op3_lookup, show alookup (buildSa3Map c2Pops op3DemoLookup) "s3" = some c2Group
    from by decide, Option.some_bind, processSa3_eq, if_neg (by decide)]
  rw [show mkPairs c2Group = [] from by
    rw [mkPairs, show mkPairsPre c2Group = [] from by decide]
    rfl]
  rfl

/-- 15 member SA2s where only `n` and `o` have nonzero totals: exactly the
pair `(n, o)` survives the zero-sum guard. -/
def c9Pops : List PopRecord :=
  [⟨"a", "ka", "0-4", 0⟩, ⟨"b", "kb", "0-4", 0⟩, ⟨"c", "kc", "0-4", 0⟩,
   ⟨"d", "kd", "0-4", 0⟩, ⟨"e", "ke", "0-4", 0⟩, ⟨"f", "kf", "0-4", 0⟩,
   ⟨"g", "kg", "0-4", 0⟩, ⟨"h", "kh", "0-4", 0⟩, ⟨"i", "ki", "0-4", 0⟩,
   ⟨"j", "kj", "0-4", 0⟩, ⟨"k", "kk", "0-4", 0⟩, ⟨"l", "kl", "0-4", 0⟩,
   ⟨"m", "km", "0-4", 0⟩, ⟨"n", "kn", "0-4", 2⟩, ⟨"o", "ko", "0-4", 3⟩]

/-- The grouping `sa3_to_sa2["s3"]` built from `c9Pops`. -/
def c9Group : Sa3Group :=
  [("a", [("0-4", 0)]), ("b", [("0-4", 0)]), ("c", [("0-4", 0)]),
   ("d", [("0-4", 0)]), ("e", [("0-4", 0)]), ("f", [("0-4", 0)]),
   ("g", [("0-4", 0)]), ("h", [("0-4", 0)]), ("i", [("0-4", 0)]),
   ("j", [("0-4", 0)]), ("k", [("0-4", 0)]), ("l", [("0-4", 0)]),
   ("m", [("0-4", 0)]), ("n", [("0-4", 2)]), ("o", [("0-4", 3)])]

/-- The single entry of `output_OP3` on the `c9Pops` data. -/
noncomputable def c9Top : String × String × ℝ :=
  ("n", "o",
    cosine_similarity (([2] : List Int).map (fun (x : Int) => (x : ℚ) / (listSumInt [2] : ℚ)))
      (([3] : List Int).map (fun (y : Int) => (y : ℚ) / (listSumInt [3] : ℚ))))

theorem c9_out :
    alookup (output_OP3 c9Pops op3DemoLookup) "s3" = some c9Top := by
  rw [op3_lookup, show alookup (buildSa3Map c9Pops op3DemoLookup) "s3" = some c9Group
    from by decide, Option.some_bind, processSa3_eq, if_neg (by decide)]
  rw [show mkPairs c9Group = [c9Top] from by
    rw [mkPairs, show mkPairsPre c9Group = [("n", "o", [2], [3])] from by decide]
    rfl]
  rw [selectTop_singleton]
  rw [if_pos (show pyLt (c9Top).1 (c9Top).2.1 = true from by decide)]

/-- Witness for C9 at a concrete run with a single surviving pair. -/
theorem claim_C9_witness :
    alookup (buildSa3Map c9Pops op3DemoLookup) "s3" = some c9Group ∧
      alookup (output_OP3 c9Pops op3DemoLookup) "s3" = some c9Top ∧
      sumVals ((alookup c9Group c9Top.1).getD []) ≠ 0 ∧
      sumVals ((alookup c9Group c9Top.2.1).getD []) ≠ 0 := by
  have hg : alookup (buildSa3Map c9Pops op3DemoLookup) "s3" = some c9Group := by decide
  have h := claim_C9 c9Pops op3DemoLookup "s3" c9Group c9Top.1 c9Top.2.1 c9Top.2.2 hg c9_out
  exact ⟨hg, c9_out, h.1, h.2.1⟩

/-- One-member SA3 data for the absence half of C2. -/
def c2SmallPops : List PopRecord := [⟨"a", "ka", "0-4", 1⟩]

/-- Witness for C2 (amended): a 1-member grouping is absent; the 15-member
`c9Pops` grouping with a surviving pair is present with a member pair. -/
theorem claim_C2_amended_witness :
    alookup (buildSa3Map c2SmallPops op3DemoLookup) "s3" = some [("a", [("0-4", 1)])] ∧
      (alKeys [(("a" : String), [(("0-4" : String), (1 : Int))])]).length < 15 ∧
      alookup (output_OP3 c2SmallPops op3DemoLookup) "s3" = none ∧
      alookup (buildSa3Map c9Pops op3DemoLookup) "s3" = some c9Group ∧
      15 ≤ (alKeys c9Group).length ∧ mkPairsPre c9Group ≠ [] ∧
      (∃ a b sc, alookup (output_OP3 c9Pops op3DemoLookup) "s3" = some (a, b, sc) ∧
        a ∈ alKeys c9Group ∧ b ∈ alKeys c9Group) := by
  have hg1 : alookup (buildSa3Map c2SmallPops op3DemoLookup) "s3" =
      some [("a", [("0-4", 1)])] := by decide
  have hg2 : alookup (buildSa3Map c9Pops op3DemoLookup) "s3" = some c9Group := by decide
  refine ⟨hg1, by decide, ?_, hg2, by decide, by decide, ?_⟩
  · exact claim_C2_amended.1 c2SmallPops op3DemoLookup "s3" _ hg1 (by decide)
  · exact claim_C2_amended.2.2 c9Pops op3DemoLookup "s3" c9Group hg2 (by decide) (by decide)
